import Mathlib

/-!
Shallow embedding of the article normalization and enrichment pipeline of
`insurance_news_agent.py` (and its consumption in `insurance_news_dashboard.py`),
together with proofs settling the frozen claims about it.

Modelling conventions:
* Python values are modelled by `PyVal` (floats are carried symbolically as their
  lexeme, since the pipeline never computes with them; dict keys are strings,
  which covers every dict the pipeline builds or decodes from JSON).
* Fallible Python code is modelled in `Except PyErr`; an `Except.error` models an
  uncaught Python exception of the corresponding class.
* External collaborators are parameters: the text-generation client `llm`, the
  named-entity recognizer `ner`, and the current date `today` (the value
  `datetime.today().strftime("%Y-%m-%d")` would produce).
* `json.loads` is modelled by `jsonDecode`, an executable JSON reader covering
  the JSON grammar (objects, arrays, strings with escapes, integers, floats kept
  as lexemes, booleans, null); the nonstandard NaN/Infinity extensions and
  surrogate-pair combining are omitted as irrelevant to the pipeline.
-/

namespace NewsAgent

/-- Model of a Python runtime value as manipulated by the pipeline. -/
inductive PyVal where
  | none
  | bool (b : Bool)
  | int (n : Int)
  | float (lexeme : String)
  | str (s : String)
  | list (items : List PyVal)
  | dict (entries : List (String × PyVal))

/-- Model of the Python exception classes the pipeline can raise uncaught. -/
inductive PyErr where
  | typeError
  | attributeError
  | keyError (key : String)
  | exception
deriving DecidableEq

/-- Python dict lookup. Entry lists built by this development keep at most one
entry per key (`dict_set` replaces), so first-match lookup models Python dicts. -/
def dict_get (d : List (String × PyVal)) (k : String) : Option PyVal :=
  match d with
  | [] => Option.none
  | (k2, v) :: rest => if k2 = k then some v else dict_get rest k

/-- Python dict assignment `d[k] = v`: replace the value at an existing key
(keeping its position) or append a new entry. -/
def dict_set (d : List (String × PyVal)) (k : String) (v : PyVal) :
    List (String × PyVal) :=
  match d with
  | [] => [(k, v)]
  | (k2, v2) :: rest =>
    if k2 = k then (k2, v) :: rest else (k2, v2) :: dict_set rest k v

/-- Python truthiness of a float literal: nonzero iff the mantissa part has a
nonzero digit. -/
def floatTruthy (lexeme : String) : Bool :=
  (lexeme.data.takeWhile (fun c => c ≠ 'e' ∧ c ≠ 'E')).any
    (fun c => '1' ≤ c ∧ c ≤ '9')

/-- Python truthiness (`bool(v)`). -/
def py_truthy : PyVal → Bool
  | .none => false
  | .bool b => b
  | .int n => n ≠ 0
  | .float lx => floatTruthy lx
  | .str s => s ≠ ""
  | .list l => !l.isEmpty
  | .dict d => !d.isEmpty

/-- Python `v.get(k, dflt)`: only dicts have a `get` attribute; every other
value raises `AttributeError`. -/
def pyGetAttr (v : PyVal) (k : String) (dflt : PyVal) : Except PyErr PyVal :=
  match v with
  | .dict d => .ok ((dict_get d k).getD dflt)
  | _ => .error .attributeError

/-- Python `v[k]` with a string key: dict lookup (`KeyError` when missing);
any non-dict raises `TypeError`. -/
def pyIndex (v : PyVal) (k : String) : Except PyErr PyVal :=
  match v with
  | .dict d =>
    match dict_get d k with
    | some x => .ok x
    | Option.none => .error (.keyError k)
  | _ => .error .typeError

/-- The left brace character, U+007B. -/
def lbrace : Char := Char.ofNat 123

/-- The right brace character, U+007D. -/
def rbrace : Char := Char.ofNat 125

/-- JSON insignificant whitespace. -/
def jsonWs (c : Char) : Bool :=
  c = ' ' || c = '\t' || c = '\n' || c = '\r'

/-- Skip JSON insignificant whitespace. -/
def jsonSkipWs (l : List Char) : List Char :=
  l.dropWhile jsonWs

/-- Read a JSON string body (after the opening quote), handling escapes. -/
def jsonReadString : List Char → List Char → Option (String × List Char)
  | [], _ => Option.none
  | c :: rest, acc =>
    if c = '"' then some (String.mk acc.reverse, rest)
    else if c = '\\' then
      match rest with
      | [] => Option.none
      | e :: rest2 =>
        if e = '"' then jsonReadString rest2 ('"' :: acc)
        else if e = '\\' then jsonReadString rest2 ('\\' :: acc)
        else if e = '/' then jsonReadString rest2 ('/' :: acc)
        else if e = 'b' then jsonReadString rest2 (Char.ofNat 8 :: acc)
        else if e = 'f' then jsonReadString rest2 (Char.ofNat 12 :: acc)
        else if e = 'n' then jsonReadString rest2 ('\n' :: acc)
        else if e = 'r' then jsonReadString rest2 ('\r' :: acc)
        else if e = 't' then jsonReadString rest2 ('\t' :: acc)
        else if e = 'u' then
          match rest2 with
          | h1 :: h2 :: h3 :: h4 :: rest3 =>
            if h1.isDigit || (('a' ≤ h1 && h1 ≤ 'f') || ('A' ≤ h1 && h1 ≤ 'F')) then
              let hv : Char → Nat := fun h =>
                if h.isDigit then h.toNat - 48
                else if 'a' ≤ h && h ≤ 'f' then h.toNat - 87
                else h.toNat - 55
              let ok : Char → Bool := fun h =>
                h.isDigit || (('a' ≤ h && h ≤ 'f') || ('A' ≤ h && h ≤ 'F'))
              if ok h2 && ok h3 && ok h4 then
                jsonReadString rest3
                  (Char.ofNat (((hv h1 * 16 + hv h2) * 16 + hv h3) * 16 + hv h4) :: acc)
              else Option.none
            else Option.none
          | _ => Option.none
        else Option.none
    else if c.toNat < 32 then Option.none
    else jsonReadString rest (c :: acc)

/-- Digits to a natural number. -/
def digitsToNat (l : List Char) : Nat :=
  l.foldl (fun a c => a * 10 + (c.toNat - 48)) 0

/-- Read a JSON number starting at the head of the input (grammar
`-? (0|[1-9][0-9]*) frac? exp?`); a number with a fraction or exponent becomes a
`PyVal.float` carrying its lexeme. -/
def jsonReadNumber (l : List Char) : Option (PyVal × List Char) :=
  let (sign, l1) := match l with
    | '-' :: r => (true, r)
    | _ => (false, l)
  match l1 with
  | [] => Option.none
  | d :: _ =>
    if ¬ d.isDigit then Option.none
    else
      let intpart := if d = '0' then [d] else l1.takeWhile Char.isDigit
      let l2 := l1.drop intpart.length
      let (frac, l3) :=
        match l2 with
        | '.' :: r =>
          let ds := r.takeWhile Char.isDigit
          if ds.isEmpty then ([], l2) else ('.' :: ds, r.drop ds.length)
        | _ => ([], l2)
      if frac.isEmpty && (match l2 with | '.' :: _ => true | _ => false) then
        Option.none
      else
      let (ex, l4) :=
        match l3 with
        | e :: r =>
          if e = 'e' ∨ e = 'E' then
            let (s2, r2) := match r with
              | '+' :: rr => (['+'], rr)
              | '-' :: rr => (['-'], rr)
              | _ => ([], r)
            let ds := r2.takeWhile Char.isDigit
            if ds.isEmpty then ([], l3) else (e :: (s2 ++ ds), r2.drop ds.length)
          else ([], l3)
        | [] => ([], l3)
      if frac.isEmpty ∧ ex.isEmpty then
        let n : Int := Int.ofNat (digitsToNat intpart)
        some (.int (if sign then -n else n), l3)
      else
        let lex := (if sign then "-" else "") ++ String.mk (intpart ++ frac ++ ex)
        some (.float lex, l4)

mutual

/-- Read one JSON value (fuel-bounded recursion; the wrapper supplies enough
fuel for any input). -/
def jsonReadVal : Nat → List Char → Option (PyVal × List Char)
  | 0, _ => Option.none
  | Nat.succ fuel, l =>
    match jsonSkipWs l with
    | [] => Option.none
    | c :: rest =>
      if c = lbrace then
        match jsonSkipWs rest with
        | c2 :: rest2 =>
          if c2 = rbrace then some (.dict [], rest2)
          else jsonReadMembers fuel (c2 :: rest2) []
        | [] => Option.none
      else if c = '[' then
        match jsonSkipWs rest with
        | ']' :: rest2 => some (.list [], rest2)
        | r => jsonReadItems fuel r []
      else if c = '"' then
        (jsonReadString rest []).map (fun p => (PyVal.str p.1, p.2))
      else
        match c :: rest with
        | 't' :: 'r' :: 'u' :: 'e' :: r => some (.bool true, r)
        | 'f' :: 'a' :: 'l' :: 's' :: 'e' :: r => some (.bool false, r)
        | 'n' :: 'u' :: 'l' :: 'l' :: r => some (.none, r)
        | l2 => jsonReadNumber l2

/-- Read the members of a JSON object (positioned at a key; later duplicate keys
overwrite earlier ones, as in Python dicts). -/
def jsonReadMembers : Nat → List Char → List (String × PyVal) →
    Option (PyVal × List Char)
  | 0, _, _ => Option.none
  | Nat.succ fuel, l, acc =>
    match jsonSkipWs l with
    | '"' :: rest =>
      match jsonReadString rest [] with
      | some (key, r1) =>
        match jsonSkipWs r1 with
        | ':' :: r2 =>
          match jsonReadVal fuel r2 with
          | some (v, r3) =>
            let acc2 := dict_set acc key v
            match jsonSkipWs r3 with
            | ',' :: r4 => jsonReadMembers fuel r4 acc2
            | c :: r4 => if c = rbrace then some (.dict acc2, r4) else Option.none
            | [] => Option.none
          | Option.none => Option.none
        | _ => Option.none
      | Option.none => Option.none
    | _ => Option.none

/-- Read the items of a JSON array (positioned at a value). -/
def jsonReadItems : Nat → List Char → List PyVal → Option (PyVal × List Char)
  | 0, _, _ => Option.none
  | Nat.succ fuel, l, acc =>
    match jsonReadVal fuel l with
    | some (v, r1) =>
      match jsonSkipWs r1 with
      | ',' :: r2 => jsonReadItems fuel r2 (acc ++ [v])
      | ']' :: r2 => some (.list (acc ++ [v]), r2)
      | _ => Option.none
    | Option.none => Option.none

end

/-- Model of Python `json.loads`: `Option.none` models `json.JSONDecodeError`. -/
def jsonDecode (s : String) : Option PyVal :=
  match jsonReadVal (s.length + 2) s.data with
  | some (v, rest) => if jsonSkipWs rest = [] then some v else Option.none
  | Option.none => Option.none

/-- `safe_parse_response` (insurance_news_agent.py, lines 56-66): decode a string
response (empty list when undecodable), return a list as is, return the value
under key "results" for a dict (empty list default), and an empty list for
anything else. Total: the one fallible call, `json.loads`, is guarded. -/
def safe_parse_response (response : PyVal) : PyVal :=
  let dispatch : PyVal → PyVal := fun v =>
    match v with
    | .list l => .list l
    | .dict d => (dict_get d "results").getD (.list [])
    | _ => .list []
  match response with
  | .str s =>
    match jsonDecode s with
    | some v => dispatch v
    | Option.none => .list []
  | v => dispatch v

/-- Whitespace characters: model of the character class Python `re` matches with
a backslash-s in a str pattern (and of `str.isspace`, used by `strip` / `split`):
ASCII whitespace and the Unicode space separators and line/paragraph separators. -/
def pyIsSpace (c : Char) : Bool :=
  (9 ≤ c.toNat && c.toNat ≤ 13) || c = ' ' ||
  (28 ≤ c.toNat && c.toNat ≤ 31) || c.toNat = 133 || c.toNat = 160 ||
  c.toNat = 5760 || (8192 ≤ c.toNat && c.toNat ≤ 8202) ||
  c.toNat = 8232 || c.toNat = 8233 || c.toNat = 8239 || c.toNat = 8287 ||
  c.toNat = 12288

/-- Model of Python `str.isprintable` per character: everything is printable
except the space character is, while control characters (Cc), the sampled
format characters (Cf), and the non-space separators (Zs/Zl/Zp) are not. -/
def pyIsPrintable (c : Char) : Bool :=
  if c = ' ' then true
  else if c.toNat < 32 || c.toNat = 127 || (128 ≤ c.toNat && c.toNat ≤ 159) then
    false
  else if c.toNat = 160 || c.toNat = 173 || c.toNat = 5760 ||
      (8192 ≤ c.toNat && c.toNat ≤ 8202) ||
      (8203 ≤ c.toNat && c.toNat ≤ 8207) ||
      c.toNat = 8232 || c.toNat = 8233 ||
      (8234 ≤ c.toNat && c.toNat ≤ 8238) || c.toNat = 8239 || c.toNat = 8287 ||
      (8288 ≤ c.toNat && c.toNat ≤ 8292) || c.toNat = 12288 ||
      c.toNat = 65279 then
    false
  else true

/-- Not a greater-than sign (the tag-pattern interior class). -/
def neGt (c : Char) : Bool :=
  c ≠ '>'

/-- Not whitespace. -/
def nonSp (c : Char) : Bool :=
  !pyIsSpace c

/-- Does the first list start with the second? -/
def startsWithList (l pre : List Char) : Bool :=
  match pre, l with
  | [], _ => true
  | _ :: _, [] => false
  | p :: ps, c :: cs => p = c && startsWithList cs ps

/-- A scalar value for a numeric character reference (the replacement character
for values outside the Unicode scalar range, approximating CPython). -/
def charFromCode (n : Nat) : Char :=
  if n < 55296 ∨ (57344 ≤ n ∧ n ≤ 1114111) then Char.ofNat n
  else Char.ofNat 65533

/-- Hexadecimal digit (the character class of hex numeric references). -/
def hexDigit (c : Char) : Bool :=
  c.isDigit || ('a' ≤ c && c ≤ 'f') || ('A' ≤ c && c ≤ 'F')

/-- Try to read one HTML character reference right after an ampersand, returning
the replacement character and how many input characters it spans. Model of the
references `html.unescape` resolves, restricted to the five XML named entities
plus nbsp and to semicolon-terminated numeric (decimal and hex) references;
the HTML5 long-name table and the semicolon-less forms are not modelled. -/
def entityMatch (l : List Char) : Option (Char × Nat) :=
  if startsWithList l ['a', 'm', 'p', ';'] then some ('&', 4)
  else if startsWithList l ['l', 't', ';'] then some ('<', 3)
  else if startsWithList l ['g', 't', ';'] then some ('>', 3)
  else if startsWithList l ['q', 'u', 'o', 't', ';'] then some ('"', 5)
  else if startsWithList l ['a', 'p', 'o', 's', ';'] then some (Char.ofNat 39, 5)
  else if startsWithList l ['n', 'b', 's', 'p', ';'] then some (Char.ofNat 160, 6)
  else
    match l with
    | hash :: r =>
      if hash = '#' then
        match r with
        | x0 :: r2 =>
          if x0 = 'x' then
            let ds := r2.takeWhile hexDigit
            if ds.isEmpty then Option.none
            else
              match r2.drop ds.length with
              | sc :: _ =>
                if sc = ';' then
                  let hv : Char → Nat := fun h =>
                    if h.isDigit then h.toNat - 48
                    else if 'a' ≤ h && h ≤ 'f' then h.toNat - 87
                    else h.toNat - 55
                  some (charFromCode (ds.foldl (fun a c => a * 16 + hv c) 0),
                    2 + ds.length + 1)
                else Option.none
              | [] => Option.none
          else
            let ds := r.takeWhile Char.isDigit
            if ds.isEmpty then Option.none
            else
              match r.drop ds.length with
              | sc :: _ =>
                if sc = ';' then
                  some (charFromCode (digitsToNat ds), 1 + ds.length + 1)
                else Option.none
              | [] => Option.none
        | [] => Option.none
      else Option.none
    | [] => Option.none

/-- Scanner of `htmlUnescape` (fuel-bounded structural recursion; every step
consumes at least one character, so the wrapper fuel is never exhausted). -/
def unescapeGo : Nat → List Char → List Char
  | 0, l => l
  | _, [] => []
  | Nat.succ fuel, c :: rest =>
    if c = '&' then
      match entityMatch rest with
      | some (rep, k) => rep :: unescapeGo fuel (rest.drop k)
      | Option.none => '&' :: unescapeGo fuel rest
    else c :: unescapeGo fuel rest

/-- Model of `html.unescape`: left-to-right scan resolving character references
(replacements are not rescanned, as in CPython). -/
def htmlUnescape (l : List Char) : List Char :=
  unescapeGo (l.length + 1) l

/-- Scanner of `subTags` (fuel-bounded structural recursion). -/
def subTagsGo : Nat → List Char → List Char
  | 0, l => l
  | _, [] => []
  | Nat.succ fuel, c :: rest =>
    if c = '<' then
      let seg := rest.takeWhile neGt
      if 1 ≤ seg.length ∧ seg.length < rest.length then
        ' ' :: subTagsGo fuel (rest.drop (seg.length + 1))
      else c :: subTagsGo fuel rest
    else c :: subTagsGo fuel rest

/-- Model of the substitution replacing each match of the tag pattern
(a less-than sign, one or more characters other than greater-than, a
greater-than sign) with a single space, scanning left to right. -/
def subTags (l : List Char) : List Char :=
  subTagsGo (l.length + 1) l

/-- Does a URL-pattern match start here (the literal "http" followed by at
least one non-whitespace character)? -/
def httpHeadMatch (l : List Char) : Bool :=
  match l with
  | c1 :: c2 :: c3 :: c4 :: c5 :: _ =>
    c1 = 'h' && c2 = 't' && c3 = 't' && c4 = 'p' && !pyIsSpace c5
  | _ => false

/-- Scanner of `subUrls` (fuel-bounded structural recursion): on a match,
consume the four pattern letters and then the maximal non-whitespace run. -/
def subUrlsGo : Nat → List Char → List Char
  | 0, l => l
  | _, [] => []
  | Nat.succ fuel, c :: rest =>
    if httpHeadMatch (c :: rest) then
      subUrlsGo fuel (((c :: rest).drop 4).dropWhile nonSp)
    else c :: subUrlsGo fuel rest

/-- Model of the substitution deleting each match of the URL pattern (the
literal "http" followed by one or more non-whitespace characters), scanning
left to right. -/
def subUrls (l : List Char) : List Char :=
  subUrlsGo (l.length + 1) l

/-- Finite sample of the NFKD compatibility-decomposition table (no-break space,
the fi and fl ligatures, vulgar one half, small ampersand); all other characters
are NFKD-stable in the model. -/
def nfkdTable (c : Char) : Option (List Char) :=
  if c.toNat = 160 then some [' ']
  else if c.toNat = 64257 then some ['f', 'i']
  else if c.toNat = 64258 then some ['f', 'l']
  else if c.toNat = 189 then some ['1', Char.ofNat 8260, '2']
  else if c.toNat = 65120 then some ['&']
  else Option.none

/-- Model of `unicodedata.normalize("NFKD", _)` via `nfkdTable`. -/
def nfkdStr (l : List Char) : List Char :=
  l.foldr (fun c acc => ((nfkdTable c).getD [c]) ++ acc) []

/-- Collapse every maximal run of whitespace to a single space (model of the
substitution of one-or-more whitespace characters by a space). -/
def collapseWs (l : List Char) : List Char :=
  match l with
  | [] => []
  | [c] => if pyIsSpace c then [' '] else [c]
  | c :: d :: rest =>
    if pyIsSpace c then
      if pyIsSpace d then collapseWs (d :: rest)
      else ' ' :: collapseWs (d :: rest)
    else c :: collapseWs (d :: rest)

/-- Python `str.strip()`: drop leading and trailing whitespace. -/
def pyStrip (l : List Char) : List Char :=
  ((l.dropWhile pyIsSpace).reverse.dropWhile pyIsSpace).reverse

/-- `clean_text` (insurance_news_agent.py, lines 68-76): empty string for any
non-string input; otherwise HTML-unescape, strip tags, strip URLs, NFKD
normalize, drop non-printable characters, collapse whitespace runs and trim. -/
def clean_text (v : PyVal) : String :=
  match v with
  | .str s =>
    String.mk (pyStrip (collapseWs (List.filter pyIsPrintable
      (nfkdStr (subUrls (subTags (htmlUnescape s.data)))))))
  | _ => ""

/-- ASCII lowercasing (model of `str.lower` on the ASCII range; the keyword
table it feeds is pure ASCII). -/
def asciiLower (s : String) : String :=
  String.mk (s.data.map (fun c =>
    if 'A' ≤ c ∧ c ≤ 'Z' then Char.ofNat (c.toNat + 32) else c))

/-- Executable contiguous-sublist test. -/
def listInfixOf (needle hay : List Char) : Bool :=
  match hay with
  | [] => needle.isEmpty
  | _ :: rest => startsWithList hay needle || listInfixOf needle rest

/-- Substring test (Python `needle in hay` on strings). -/
def strContains (hay needle : String) : Bool :=
  listInfixOf needle.data hay.data

/-- Left-to-right, non-overlapping removal of every occurrence of "www."
(model of `.replace("www.", "")`). -/
def removeWwwAll : List Char → List Char
  | 'w' :: 'w' :: 'w' :: '.' :: rest => removeWwwAll rest
  | c :: rest => c :: removeWwwAll rest
  | [] => []

/-- Valid URL scheme characters after the first (letters, digits, plus, dash,
dot). -/
def schemeChar (c : Char) : Bool :=
  c.isAlpha || c.isDigit || c = '+' || c = '-' || c = '.'

/-- Model of `urlparse(url).netloc`: strip a well-formed scheme prefix, then the
network location is what follows a leading double slash, up to the first slash,
question mark or hash; empty when the double slash is absent. -/
def urlNetloc (s : String) : String :=
  let l := s.data
  let pre := l.takeWhile (fun c => c ≠ ':')
  let rest :=
    if decide (pre.length < l.length) && decide (0 < pre.length) &&
        (match pre with
         | c :: cs => c.isAlpha && cs.all schemeChar
         | [] => false) then
      l.drop (pre.length + 1)
    else l
  match rest with
  | '/' :: '/' :: r =>
    String.mk (r.takeWhile (fun c => c ≠ '/' ∧ c ≠ '?' ∧ c ≠ '#'))
  | _ => ""

/-- `extract_domain_as_source` (insurance_news_agent.py, lines 78-79):
`urlparse(url).netloc.replace("www.", "")`; `urlparse` raises `TypeError` on a
non-string argument. -/
def extract_domain_as_source (url : PyVal) : Except PyErr String :=
  match url with
  | .str s => .ok (String.mk (removeWwwAll (urlNetloc s).data))
  | _ => .error .typeError

/-- First-encountered-maximum count (model of `Counter(l).most_common(1)`,
whose ties resolve to the earliest-inserted key). -/
def mostCommonStr (l : List String) : Option String :=
  l.foldl
    (fun best x =>
      match best with
      | Option.none => some x
      | some b => if l.count b < l.count x then some x else some b)
    Option.none

/-- `extract_location` (insurance_news_agent.py, lines 81-84): most frequent
entity labelled GPE or LOC by the named-entity recognizer `ner` (an external
collaborator passed as a parameter), with a fixed sentinel when none exist. -/
def extract_location (ner : String → List (String × String))
    (text : String) : String :=
  let locations := ((ner text).filter
    (fun e => e.2 = "GPE" || e.2 = "LOC")).map (fun e => e.1)
  match mostCommonStr locations with
  | some s => s
  | Option.none => "Unknown Location"

/-- The static category keyword table (insurance_news_agent.py, line 88),
in insertion order. -/
def categoriesTable : List (String × List String) :=
  [("Climate Risk", ["climate change"]),
   ("Insurance Exposures", ["insured loss"]),
   ("InsurTech", ["insurtech"])]

/-- `categorize_article` (insurance_news_agent.py, lines 86-92): first category
whose keyword list has a substring match in the lowercased text, else the
fallback label. -/
def categorize_article (text : String) : String :=
  let lower := asciiLower text
  match categoriesTable.find? (fun cat => cat.2.any (fun k => strContains lower k)) with
  | some cat => cat.1
  | Option.none => "Uncategorized"

/-- ASCII word characters (model of the regex word class over the texts the
pipeline scans). -/
def isWordChar (c : Char) : Bool :=
  c.isAlpha || c.isDigit || c = '_'

/-- Generic leftmost regex search: try the position matcher at every position,
left to right (including the end-of-string position). -/
def reSearch (m : List Char → Option (List Char)) : List Char → Option (List Char)
  | [] => m []
  | c :: rest =>
    match m (c :: rest) with
    | some g => some g
    | Option.none => reSearch m rest

/-- Position matcher for the first date pattern: 20 then two digits, dash or
slash, two digits, dash or slash, two digits; returns the matched text. -/
def matchP1At (l : List Char) : Option (List Char) :=
  match l with
  | c1 :: c2 :: a :: b :: s1 :: m1 :: m2 :: s2 :: e1 :: e2 :: _ =>
    if c1 = '2' && c2 = '0' && a.isDigit && b.isDigit &&
        (s1 = '-' || s1 = '/') && m1.isDigit && m2.isDigit &&
        (s2 = '-' || s2 = '/') && e1.isDigit && e2.isDigit then
      some [c1, c2, a, b, s1, m1, m2, s2, e1, e2]
    else Option.none
  | _ => Option.none

/-- Shared tail of the second date pattern: one or more word characters, a
space, then 20 and two digits. -/
def matchWordSpYear (l : List Char) : Option (List Char) :=
  if (l.takeWhile isWordChar).isEmpty then Option.none
  else
    match l.drop (l.takeWhile isWordChar).length with
    | sp :: c2 :: c0 :: a :: b :: _ =>
      if sp = ' ' && c2 = '2' && c0 = '0' && a.isDigit && b.isDigit then
        some (l.takeWhile isWordChar ++ [' ', '2', '0', a, b])
      else Option.none
    | _ => Option.none

/-- Two-digit alternative of the second date pattern. -/
def matchP2Two (l : List Char) : Option (List Char) :=
  match l with
  | d1 :: d2 :: sp :: rest =>
    if d1.isDigit && d2.isDigit && sp = ' ' then
      (matchWordSpYear rest).map (fun g => d1 :: d2 :: ' ' :: g)
    else Option.none
  | _ => Option.none

/-- One-digit alternative of the second date pattern. -/
def matchP2One (l : List Char) : Option (List Char) :=
  match l with
  | d1 :: sp :: rest =>
    if d1.isDigit && sp = ' ' then
      (matchWordSpYear rest).map (fun g => d1 :: ' ' :: g)
    else Option.none
  | _ => Option.none

/-- Position matcher for the second date pattern (one or two digits, space,
word, space, year 20xx); the two-digit alternative is tried first, as the
greedy bounded repetition does. -/
def matchP2At (l : List Char) : Option (List Char) :=
  match matchP2Two l with
  | some g => some g
  | Option.none => matchP2One l

/-- Digits-onward tail of the third date pattern (one or two digits, comma,
space, year 20xx), two-digit alternative first. -/
def matchP3Tail (rest : List Char) : Option (List Char) :=
  let two :=
    match rest with
    | d1 :: d2 :: cm :: sp :: c2 :: c0 :: a :: b :: _ =>
      if d1.isDigit && d2.isDigit && cm = ',' && sp = ' ' && c2 = '2' &&
          c0 = '0' && a.isDigit && b.isDigit then
        some [d1, d2, ',', ' ', '2', '0', a, b]
      else Option.none
    | _ => Option.none
  match two with
  | some g => some g
  | Option.none =>
    match rest with
    | d1 :: cm :: sp :: c2 :: c0 :: a :: b :: _ =>
      if d1.isDigit && cm = ',' && sp = ' ' && c2 = '2' && c0 = '0' &&
          a.isDigit && b.isDigit then
        some [d1, ',', ' ', '2', '0', a, b]
      else Option.none
    | _ => Option.none

/-- Position matcher for the third date pattern (word, space, one or two
digits, comma, space, year 20xx). -/
def matchP3At (l : List Char) : Option (List Char) :=
  if (l.takeWhile isWordChar).isEmpty then Option.none
  else
    match l.drop (l.takeWhile isWordChar).length with
    | sp :: rest =>
      if sp = ' ' then
        (matchP3Tail rest).map (fun tl => l.takeWhile isWordChar ++ ' ' :: tl)
      else Option.none
    | [] => Option.none

/-- Gregorian leap year. -/
def isLeap (y : Nat) : Bool :=
  y % 4 = 0 && (y % 100 ≠ 0 || y % 400 = 0)

/-- Days in a month. -/
def daysInMonth (y m : Nat) : Nat :=
  if m = 2 then (if isLeap y then 29 else 28)
  else if m = 4 ∨ m = 6 ∨ m = 9 ∨ m = 11 then 30
  else 31

/-- Month token of the strptime format: two-digit alternatives 10-12 and 01-09
tried before a single digit 1-9, each followed by a dash. -/
def monthSplit (l : List Char) : Option (Nat × List Char) :=
  let two :=
    match l with
    | m1 :: m2 :: sep :: rest =>
      if ((m1 = '1' && '0' ≤ m2 && m2 ≤ '2') ||
          (m1 = '0' && '1' ≤ m2 && m2 ≤ '9')) && sep = '-' then
        some (digitsToNat [m1, m2], rest)
      else Option.none
    | _ => Option.none
  match two with
  | some r => some r
  | Option.none =>
    match l with
    | m1 :: sep :: rest =>
      if ('1' ≤ m1 && m1 ≤ '9') && sep = '-' then
        some (m1.toNat - 48, rest)
      else Option.none
    | _ => Option.none

/-- Day token at end of input: two-digit alternatives 30-31, 10-29 and 01-09
tried before a single digit 1-9; the input must end right after. -/
def daySplit (l : List Char) : Option Nat :=
  let two :=
    match l with
    | d1 :: d2 :: [] =>
      if (d1 = '3' && ('0' ≤ d2 && d2 ≤ '1')) ||
          (('1' ≤ d1 && d1 ≤ '2') && d2.isDigit) ||
          (d1 = '0' && '1' ≤ d2 && d2 ≤ '9') then
        some (digitsToNat [d1, d2])
      else Option.none
    | _ => Option.none
  match two with
  | some r => some r
  | Option.none =>
    match l with
    | d1 :: [] => if '1' ≤ d1 && d1 ≤ '9' then some (d1.toNat - 48) else Option.none
    | _ => Option.none

/-- Model of `datetime.strptime(s, "%Y-%m-%d")`: four-digit year, dash, month,
dash, day, end of input, with real-calendar day validation. -/
def parseIso (l : List Char) : Option (Nat × Nat × Nat) :=
  match l with
  | y1 :: y2 :: y3 :: y4 :: sep :: rest =>
    if y1.isDigit && y2.isDigit && y3.isDigit && y4.isDigit && sep = '-' then
      let y := digitsToNat [y1, y2, y3, y4]
      match monthSplit rest with
      | some (m, rest2) =>
        match daySplit rest2 with
        | some d => if d ≤ daysInMonth y m then some (y, m, d) else Option.none
        | Option.none => Option.none
      | Option.none => Option.none
    else Option.none
  | _ => Option.none

/-- Zero-pad to two digits. -/
def pad2 (n : Nat) : String :=
  if n < 10 then "0" ++ toString n else toString n

/-- Model of `.strftime("%Y-%m-%d")` on a parsed date (years here are always
four digits). -/
def fmtIso (d : Nat × Nat × Nat) : String :=
  toString d.1 ++ "-" ++ pad2 d.2.1 ++ "-" ++ pad2 d.2.2

/-- One text of the date-extraction loop: for each pattern in order, find its
first match and try to strptime it; a match that fails to parse falls through
to the next pattern. -/
def tryPatternsText (l : List Char) : Option String :=
  let step : (List Char → Option (List Char)) → Option String := fun m =>
    (reSearch m l).bind (fun g => (parseIso g).map fmtIso)
  match step matchP1At with
  | some d => some d
  | Option.none =>
    match step matchP2At with
    | some d => some d
    | Option.none => step matchP3At

/-- `extract_best_date` (insurance_news_agent.py, lines 94-104): scan url,
title, content in order; within each text try the three patterns in order,
parsing every match with the fixed iso format; fall back to the current date
(`today`, a parameter standing for the impure clock). A non-string text raises
`TypeError` at its first `re.search` call, unless an earlier text already
produced a date. -/
def extract_best_date (url title content : PyVal) (today : String) :
    Except PyErr String :=
  let tryOne : PyVal → Except PyErr (Option String) := fun t =>
    match t with
    | .str s => .ok (tryPatternsText s.data)
    | _ => .error .typeError
  match tryOne url with
  | .error e => .error e
  | .ok (some d) => .ok d
  | .ok Option.none =>
    match tryOne title with
    | .error e => .error e
    | .ok (some d) => .ok d
    | .ok Option.none =>
      match tryOne content with
      | .error e => .error e
      | .ok (some d) => .ok d
      | .ok Option.none => .ok today

/-- The tail dropWhile is shorter than the cons (termination helper). -/
theorem length_dropWhile_lt_cons (p : Char → Bool) (c : Char) (rest : List Char) :
    (rest.dropWhile p).length < (c :: rest).length := by
  have := (List.dropWhile_sublist (l := rest) p).length_le
  simp only [List.length_cons]
  omega

/-- Scanner of `pySplitWs` (fuel-bounded structural recursion). -/
def pySplitWsGo : Nat → List Char → List String
  | 0, _ => []
  | _, [] => []
  | Nat.succ fuel, c :: rest =>
    if pyIsSpace c then pySplitWsGo fuel rest
    else
      String.mk (c :: rest.takeWhile nonSp) ::
        pySplitWsGo fuel (rest.dropWhile nonSp)

/-- Python whitespace split (`str.split()` with no argument): maximal
non-whitespace runs, no empty words. -/
def pySplitWs (l : List Char) : List String :=
  pySplitWsGo (l.length + 1) l

/-- The part of a path after the last slash. -/
def basenameStr (s : String) : String :=
  String.mk ((s.data.reverse.takeWhile (fun c => c ≠ '/')).reverse)

/-- Model of `os.path.basename` (POSIX): the part after the last slash;
`TypeError` on a non-string argument. -/
def osBasename (v : PyVal) : Except PyErr String :=
  match v with
  | .str s => .ok (basenameStr s)
  | _ => .error .typeError

/-- Python iteration over the parsed results value (`len` + `for result in`):
lists yield their items, strings their characters, dicts their keys; any other
value raises `TypeError` (not iterable). -/
def pyIterItems (v : PyVal) : Except PyErr (List PyVal) :=
  match v with
  | .list l => .ok l
  | .str s => .ok (s.data.map (fun c => PyVal.str (String.mk [c])))
  | .dict d => .ok (d.map (fun e => PyVal.str e.1))
  | _ => .error .typeError

/-- The per-result body of `structure_articles` (insurance_news_agent.py,
lines 110-120): build one structured record from a raw result, resolving title,
source, date, location and category with their fallback chains. Uncaught
exceptions of the Python code surface as `Except.error`. -/
def structure_one (ner : String → List (String × String)) (today : String)
    (result : PyVal) : Except PyErr PyVal := do
    let url ← pyGetAttr result "url" (.str "")
    let t0 ← pyGetAttr result "title" (.str "")
    let title ←
      if py_truthy t0 then pure t0
      else do
        let b ← osBasename url
        if b ≠ "" then pure (PyVal.str b) else pure (PyVal.str "No Title")
    let s0 ← pyGetAttr result "source" (.str "")
    let source ←
      if py_truthy s0 then pure s0
      else do
        let n ← extract_domain_as_source url
        pure (PyVal.str n)
    let rawContent ← pyGetAttr result "content" (.str "")
    let fullContent := clean_text rawContent
    let summaryInput := String.intercalate " " ((pySplitWs fullContent.data).take 800)
    let date ← extract_best_date url title (.str fullContent) today
    let location := extract_location ner fullContent
    let category := categorize_article fullContent
    pure (PyVal.dict [("title", title), ("url", url), ("source", source),
      ("date", .str date), ("location", .str location),
      ("category", .str category), ("summary_input", .str summaryInput),
      ("full_content", .str fullContent)])

/-- `structure_articles` continued: parse the response and run `structure_one`
over the iterated raw results, in order. -/
def structure_articles (ner : String → List (String × String)) (today : String)
    (response : PyVal) : Except PyErr (List PyVal) := do
  let items ← pyIterItems (safe_parse_response response)
  items.mapM (structure_one ner today)

/-- The static trusted-source registry (insurance_news_agent.py, line 39), in
insertion order. -/
def trusted_sources : List (String × List String) :=
  [("TNFD", ["tnfd.global"]), ("IPCC", ["ipcc.ch"]), ("Swiss Re", ["swissre.com"])]

/-- Python `needle in hay` for a string needle: substring test on strings,
membership on lists and dict keys, `TypeError` otherwise. -/
def pyInStr (needle : String) (hay : PyVal) : Except PyErr Bool :=
  match hay with
  | .str s => .ok (strContains s needle)
  | .list l => .ok (l.any (fun v => match v with | .str s => s = needle | _ => false))
  | .dict d => .ok (d.any (fun e => e.1 = needle))
  | _ => .error .typeError

/-- Short-circuit `any(domain in u for domain in domains)`. -/
def anyInUrl (domains : List String) (u : PyVal) : Except PyErr Bool :=
  match domains with
  | [] => .ok false
  | d :: rest => do
    let h ← pyInStr d u
    if h then pure true else anyInUrl rest u

/-- `enrich_articles_with_research_references` (insurance_news_agent.py, lines
44-53): for each article, collect the organizations of the registry whose
domain occurs in the url (indexed with `article["url"]`, which raises on a
missing key or a non-dict), set the sentinel list when none match, and write
the result under research_references, preserving order. -/
def enrich_refs_one (article : PyVal) : Except PyErr PyVal := do
  let u ← pyIndex article "url"
  let refs ← trusted_sources.foldlM
    (fun acc od => do
      let hit ← anyInUrl od.2 u
      pure (if hit then acc ++ [PyVal.str od.1] else acc)) []
  let refsVal := if refs.isEmpty then PyVal.list [PyVal.str "None"]
    else PyVal.list refs
  match article with
  | .dict d => pure (PyVal.dict (dict_set d "research_references" refsVal))
  | _ => .error .typeError

/-- The loop of `enrich_articles_with_research_references`: the per-article
body over the input order. -/
def enrich_articles_with_research_references (articles : List PyVal) :
    Except PyErr (List PyVal) :=
  articles.mapM enrich_refs_one

/-- The single-quote character. -/
def sq : String := String.mk [Char.ofNat 39]

mutual

/-- Approximation of Python `repr` for model values, used only when an
f-string interpolates a non-string field (double quotes stand in for the
single quotes CPython prints). -/
def pyRepr : PyVal → String
  | .none => "None"
  | .bool true => "True"
  | .bool false => "False"
  | .int n => toString n
  | .float lx => lx
  | .str s => sq ++ s ++ sq
  | .list items => "[" ++ pyReprList items ++ "]"
  | .dict entries => String.mk [lbrace] ++ pyReprDict entries ++ String.mk [rbrace]

/-- Comma-separated reprs of list items. -/
def pyReprList : List PyVal → String
  | [] => ""
  | [x] => pyRepr x
  | x :: y :: rest => pyRepr x ++ ", " ++ pyReprList (y :: rest)

/-- Comma-separated reprs of dict entries. -/
def pyReprDict : List (String × PyVal) → String
  | [] => ""
  | [(k, v)] => sq ++ k ++ sq ++ ": " ++ pyRepr v
  | (k, v) :: e :: rest => sq ++ k ++ sq ++ ": " ++ pyRepr v ++ ", " ++ pyReprDict (e :: rest)

end

/-- Python `str()` conversion as the f-string applies it. -/
def pyStrOf : PyVal → String
  | .str s => s
  | v => pyRepr v

/-- Python slice `v[:3000]`: strings and lists are sliceable; other values
raise `TypeError`. -/
def pySlice3000 (v : PyVal) : Except PyErr PyVal :=
  match v with
  | .str s => .ok (.str (String.mk (s.data.take 3000)))
  | .list l => .ok (.list (l.take 3000))
  | _ => .error .typeError

/-- `article.get(k, "")` inside the prompt f-string. -/
def promptField (article : PyVal) (k : String) : Except PyErr PyVal :=
  pyGetAttr article k (.str "")

/-- The fixed analyst-instruction text of the enrichment prompt
(insurance_news_agent.py, lines 123-173), up to the interpolated fields. -/
def promptHeader : String :=
  "\nYou are an expert AI analyst at a global insurance firm. Your task is to analyze the provided article and clearly summarize it into an insightful, detailed, and highly structured summary explicitly crafted for risk analysts and decision-makers in the insurance industry.\n"
  ++ "\nExplicitly include the following critical information in your summary clearly and concisely:\n"
  ++ "\n1. **Main Issue/Event**: Clearly describe what specifically happened (e.g., wildfire, flood, policy change, regulation update, insurtech development).\n"
  ++ "\n2. **Date and Location**: Clearly state when and where exactly the issue/event occurred or will occur.\n"
  ++ "\n3. **Key Stakeholders**: Clearly mention any important companies, organizations, governments, or individuals involved or affected directly.\n"
  ++ "\n4. **Impacts on Insurance Business**:\n"
  ++ "   - Describe clearly any direct or indirect effects on the insurance and reinsurance industry.\n"
  ++ "   - Clearly indicate potential changes in underwriting practices or risks to exposure.\n"
  ++ "\n5. **Regulatory or Policy Changes**: Clearly state any significant policy, regulatory, or legislative developments described in the article.\n"
  ++ "\n6. **Financial and Economic Implications**:\n"
  ++ "   - Clearly summarize any explicitly mentioned or implied financial losses, premiums adjustments, claims impacts, or economic repercussions.\n"
  ++ "\n7. **Technological Implications (if mentioned)**:\n"
  ++ "   - Describe clearly how technology or innovation (e.g., AI, IoT, blockchain, etc.) is involved or impacted.\n"
  ++ "\n8. **Environmental and Social Impact (if applicable)**:\n"
  ++ "   - Clearly summarize any mentioned environmental or social consequences.\n"
  ++ "\n9. **Immediate Action Recommendations**: Clearly and explicitly provide an actionable recommendation for insurance analysts to manage or monitor the described risk or situation.\n"
  ++ "\n10. **Explicitly Suggested External References**:\n"
  ++ "   - Clearly list relevant external references, explicitly providing both the name and the complete URL to official reports, trusted documents, or authoritative sources.\n"
  ++ "\nStructure your output clearly and explicitly as this JSON format:\n"
  ++ "\n\x7b\n"
  ++ "  \"title\": \"...\",\n"
  ++ "  \"url\": \"...\",\n"
  ++ "  \"date\": \"...\",\n"
  ++ "  \"source\": \"...\",\n"
  ++ "  \"category\": \"...\",\n"
  ++ "  \"location\": \"...\",\n"
  ++ "  \"summary\": \"...\",  # Clearly structured and comprehensive covering above points.\n"
  ++ "  \"references\": [\n"
  ++ "    \x7b\"name\": \"IPCC\", \"url\": \"https://ipcc.ch/report.pdf\"\x7d,\n"
  ++ "    \x7b\"name\": \"TNFD\", \"url\": \"https://tnfd.global/report.pdf\"\x7d\n"
  ++ "  ],\n"
  ++ "  \"sentiment\": \"...\",\n"
  ++ "  \"recommendation\": \"...\",\n"
  ++ "  \"financial_impact\": \"...\"\n"
  ++ "\x7d\n"
  ++ "\nClearly use only the provided structured article content explicitly below to craft your response:\n"

/-- The interpolated tail of the enrichment prompt (insurance_news_agent.py,
lines 175-181): the f-string reads six fields with `article.get` and slices the
content to 3000 characters; a non-dict article or an unsliceable content value
raises before the guarded call. -/
def buildPrompt (article : PyVal) : Except PyErr String := do
  let title ← promptField article "title"
  let url ← promptField article "url"
  let date ← promptField article "date"
  let source ← promptField article "source"
  let summary ← promptField article "summary_input"
  let contentFull ← promptField article "full_content"
  let content ← pySlice3000 contentFull
  pure (promptHeader
    ++ "\nTitle: " ++ pyStrOf title
    ++ "\nURL: " ++ pyStrOf url
    ++ "\nDate: " ++ pyStrOf date
    ++ "\nSource: " ++ pyStrOf source
    ++ "\nSummary: " ++ pyStrOf summary
    ++ "\nContent: " ++ pyStrOf content
    ++ "\n")

/-- The deterministic fallback record of the enrichment adapter
(insurance_news_agent.py, lines 187-198): ten fixed keys, carrying the original
title, url, date and source. -/
def fallbackRecord (article : PyVal) : PyVal :=
  let get : String → PyVal := fun k =>
    match article with
    | .dict d => (dict_get d k).getD (.str "")
    | _ => .str ""
  .dict [("title", get "title"), ("url", get "url"), ("date", get "date"),
    ("source", get "source"), ("category", .str "Uncategorized"),
    ("summary", .str "GPT failed."), ("references", .list []),
    ("sentiment", .str "Unknown"), ("recommendation", .str "N/A"),
    ("financial_impact", .str "Not specified")]

/-- `enrich_article_with_gpt_full` (insurance_news_agent.py, lines 122-198):
build the prompt (uncaught failures propagate), call the text-generation
collaborator `llm` and parse its reply as JSON, returning the parsed value as
is; any failure of the call or of the JSON parse yields the fallback record. -/
def enrich_article_with_gpt_full (llm : String → Except PyErr String)
    (article : PyVal) : Except PyErr PyVal := do
  let prompt ← buildPrompt article
  match llm prompt with
  | .error _ => pure (fallbackRecord article)
  | .ok content =>
    match jsonDecode content with
    | some v => pure v
    | Option.none => pure (fallbackRecord article)

/-- Batch enrichment as the dashboard performs it
(insurance_news_dashboard.py, line 31): one adapter call per article, in input
order. -/
def enrich_all (llm : String → Except PyErr String) (articles : List PyVal) :
    Except PyErr (List PyVal) :=
  articles.mapM (enrich_article_with_gpt_full llm)

/-! Observers and spec-side definitions used to state the claims. -/

/-- Key list of a dict value (empty for non-dicts). -/
def keysOf (v : PyVal) : List String :=
  match v with
  | .dict d => d.map (fun e => e.1)
  | _ => []

/-- Field lookup on a dict value. -/
def dictLookupOf (v : PyVal) (k : String) : Option PyVal :=
  match v with
  | .dict d => dict_get d k
  | _ => Option.none

/-- String-field lookup on a dict value. -/
def getStrField (v : PyVal) (k : String) : Option String :=
  match dictLookupOf v k with
  | some (.str s) => some s
  | _ => Option.none

/-- Is the value a Python list? -/
def isList (v : PyVal) : Bool :=
  match v with
  | .list _ => true
  | _ => false

/-- `article.get(k, dflt)` as a pure observer (dicts only; default elsewhere). -/
def pyGetD (v : PyVal) (k : String) (dflt : PyVal) : PyVal :=
  match v with
  | .dict d => (dict_get d k).getD dflt
  | _ => dflt

/-- Modelled from the spec: source derivation as the spec words it, "domain of
URL with a leading www. stripped" — only a leading prefix removed. Stated for
comparison against the code's `extract_domain_as_source`. -/
def specLeadingWwwStrip (netloc : String) : String :=
  match netloc.data with
  | 'w' :: 'w' :: 'w' :: '.' :: rest => String.mk rest
  | l => String.mk l

/-- The organizations whose registered domain occurs in the url, in registry
order (the pre-sentinel reference list of the Reference Enricher). -/
def refsFor (u : String) : List PyVal :=
  (trusted_sources.filter (fun od => od.2.any (fun dm => strContains u dm))).map
    (fun od => PyVal.str od.1)

/-- The value stored under research_references for a url: the matching
organizations, or the sentinel list. -/
def refsValFor (u : String) : PyVal :=
  if (refsFor u).isEmpty then .list [.str "None"] else .list (refsFor u)

/-- The net per-article effect of the Reference Enricher on a well-formed
article (dict with a string url). -/
def setRefs (a : PyVal) : PyVal :=
  match a with
  | .dict d =>
    match dict_get d "url" with
    | some (.str u) => .dict (dict_set d "research_references" (refsValFor u))
    | _ => a
  | _ => a

/-- The research_references field of an article, as a list of strings. -/
def refsStrings (v : PyVal) : Option (List String) :=
  match dictLookupOf v "research_references" with
  | some (.list l) => some (l.map (fun x => match x with | .str s => s | _ => ""))
  | _ => Option.none

/-- The pure net effect of `extract_best_date` on three strings. -/
def best_date_str (u t c today : String) : String :=
  match tryPatternsText u.data with
  | some d => d
  | Option.none =>
    match tryPatternsText t.data with
    | some d => d
    | Option.none =>
      match tryPatternsText c.data with
      | some d => d
      | Option.none => today

/-- The resolved title string of a structured record, given the title field
string (empty when absent) and the url string. -/
def titleSpec (ts u : String) : String :=
  if ts ≠ "" then ts
  else if basenameStr u ≠ "" then basenameStr u else "No Title"

/-- The pure net effect of `structure_one` on a dict whose url and title
fields are strings (or absent): the structured record it produces. -/
def structured_spec (ner : String → List (String × String)) (today : String)
    (d : List (String × PyVal)) (u ts : String) : PyVal :=
  let titleS := titleSpec ts u
  let s0 := (dict_get d "source").getD (.str "")
  let source : PyVal := if py_truthy s0 then s0
    else .str (String.mk (removeWwwAll (urlNetloc u).data))
  let fullContent := clean_text ((dict_get d "content").getD (.str ""))
  let summaryInput := String.intercalate " " ((pySplitWs fullContent.data).take 800)
  let date := best_date_str u titleS fullContent today
  .dict [("title", .str titleS), ("url", .str u), ("source", source),
    ("date", .str date), ("location", .str (extract_location ner fullContent)),
    ("category", .str (categorize_article fullContent)),
    ("summary_input", .str summaryInput), ("full_content", .str fullContent)]

/-- The string of an optional field value defaulting to the empty string
(meaningful when the field is a string or absent). -/
def strOfD (o : Option PyVal) : String :=
  match o.getD (.str "") with
  | .str s => s
  | _ => ""

/-- The net effect of `structure_one` over a raw result (meaningful on
well-formed results). -/
def structure_spec_of (ner : String → List (String × String)) (today : String)
    (r : PyVal) : PyVal :=
  match r with
  | .dict d => structured_spec ner today d (strOfD (dict_get d "url"))
      (strOfD (dict_get d "title"))
  | _ => r

/-- The field at k is a string or absent. -/
def strField (d : List (String × PyVal)) (k : String) : Prop :=
  ∃ s, (dict_get d k).getD (.str "") = .str s

/-- The date the claims describe as the extractor's net effect: the first text
(in url, title, content order) whose first match of the numeric pattern is
dash-separated and calendar-valid contributes the reformatted date; otherwise
the current date. -/
def specNetDate (texts : List String) (today : String) : String :=
  match texts.findSome? (fun s => (reSearch matchP1At s.data).bind
      (fun g => (parseIso g).map fmtIso)) with
  | some d => d
  | Option.none => today

/-! Helper lemmas. -/

/-- The enrichment adapter returns the fallback record whenever the collaborator
call raises or its reply fails to decode as JSON. -/
theorem enrich_eq_fallback (llm : String → Except PyErr String) (article : PyVal)
    (p : String) (hp : buildPrompt article = .ok p)
    (hf : (∃ e, llm p = .error e) ∨ ∃ c, llm p = .ok c ∧ jsonDecode c = Option.none) :
    enrich_article_with_gpt_full llm article = .ok (fallbackRecord article) := by
  unfold enrich_article_with_gpt_full
  rw [hp]
  rcases hf with ⟨e, he⟩ | ⟨c, hc, hd⟩
  · simp [Bind.bind, Except.bind, Pure.pure, Except.pure, he]
  · simp [Bind.bind, Except.bind, Pure.pure, Except.pure, hc, hd]

/-- The four carried-through fields of the fallback record. -/
theorem fallback_fields (a : PyVal) :
    dictLookupOf (fallbackRecord a) "title" = some (pyGetD a "title" (.str "")) ∧
    dictLookupOf (fallbackRecord a) "url" = some (pyGetD a "url" (.str "")) ∧
    dictLookupOf (fallbackRecord a) "date" = some (pyGetD a "date" (.str "")) ∧
    dictLookupOf (fallbackRecord a) "source" = some (pyGetD a "source" (.str "")) := by
  cases a <;> simp [fallbackRecord, pyGetD, dictLookupOf, dict_get]

/-- Pointwise-successful `mapM` over `Except` is a `map`. -/
theorem mapM_ok_of {α β : Type} (f : α → Except PyErr β) (g : α → β)
    (l : List α) (h : ∀ a ∈ l, f a = .ok (g a)) :
    l.mapM f = .ok (l.map g) := by
  induction l with
  | nil => rfl
  | cons a rest ih =>
    rw [List.mapM_cons, h a (List.mem_cons_self a rest),
      ih (fun x hx => h x (List.mem_cons_of_mem a hx))]
    rfl

/-! Claim C5. -/

/-- C5: for every StructuredArticle (any article whose prompt builds), the
record returned when the text-generation call or its JSON parse fails is the
fallback record, whose keys are exactly title, url, date, source, category,
summary, references, sentiment, recommendation and financial_impact — in
particular it has no location key. -/
theorem claim_C5 (article : PyVal) (llm : String → Except PyErr String)
    (hp : ∃ p, buildPrompt article = .ok p)
    (hf : ∀ q, (∃ e, llm q = .error e) ∨
      ∃ c, llm q = .ok c ∧ jsonDecode c = Option.none) :
    enrich_article_with_gpt_full llm article = .ok (fallbackRecord article) ∧
    keysOf (fallbackRecord article) =
      ["title", "url", "date", "source", "category", "summary", "references",
       "sentiment", "recommendation", "financial_impact"] ∧
    dictLookupOf (fallbackRecord article) "location" = Option.none := by
  obtain ⟨p, hp⟩ := hp
  exact ⟨enrich_eq_fallback llm article p hp (hf p), rfl, rfl⟩

/-- C5 witness: a concrete failing run returns the ten-key fallback record. -/
theorem claim_C5_witness :
    enrich_article_with_gpt_full (fun _ => .error .exception) (.dict []) =
      .ok (fallbackRecord (.dict [])) ∧
    keysOf (fallbackRecord (.dict [])) =
      ["title", "url", "date", "source", "category", "summary", "references",
       "sentiment", "recommendation", "financial_impact"] ∧
    dictLookupOf (fallbackRecord (.dict [])) "location" = Option.none :=
  claim_C5 (.dict []) (fun _ => .error .exception) ⟨_, rfl⟩
    (fun _ => Or.inl ⟨.exception, rfl⟩)

/-! Claim C1. -/

/-- C1 counterexample: on a failed call the fallback record carries category
"Uncategorized" and sentiment "Unknown" (capitalized), not the claimed literals
"uncategorized" and "unknown". -/
theorem claim_C1_counterexample :
    enrich_all (fun _ => .error .exception)
      [.dict [("title", .str "T"), ("url", .str "U"),
              ("date", .str "D"), ("source", .str "S")]] =
      .ok [fallbackRecord (.dict [("title", .str "T"), ("url", .str "U"),
              ("date", .str "D"), ("source", .str "S")])] ∧
    getStrField (fallbackRecord (.dict [("title", .str "T"), ("url", .str "U"),
        ("date", .str "D"), ("source", .str "S")])) "category" =
      some "Uncategorized" ∧
    getStrField (fallbackRecord (.dict [("title", .str "T"), ("url", .str "U"),
        ("date", .str "D"), ("source", .str "S")])) "sentiment" =
      some "Unknown" ∧
    "Uncategorized" ≠ "uncategorized" ∧ "Unknown" ≠ "unknown" :=
  ⟨rfl, rfl, rfl, by decide, by decide⟩

/-- C1 (amended): for every sequence of articles whose prompts build, when
every collaborator call raises, enrichment yields exactly one record per input
article in input order — the fallback record — carrying the original title,
url, date and source unchanged, with category "Uncategorized" (not
"uncategorized"), sentiment "Unknown" (not "unknown"), and empty references. -/
theorem claim_C1 (llm : String → Except PyErr String) (articles : List PyVal)
    (hl : ∀ q, ∃ e, llm q = .error e)
    (hd : ∀ a ∈ articles, ∃ p, buildPrompt a = .ok p) :
    enrich_all llm articles = .ok (articles.map fallbackRecord) ∧
    (articles.map fallbackRecord).length = articles.length ∧
    ∀ a ∈ articles,
      dictLookupOf (fallbackRecord a) "title" = some (pyGetD a "title" (.str "")) ∧
      dictLookupOf (fallbackRecord a) "url" = some (pyGetD a "url" (.str "")) ∧
      dictLookupOf (fallbackRecord a) "date" = some (pyGetD a "date" (.str "")) ∧
      dictLookupOf (fallbackRecord a) "source" = some (pyGetD a "source" (.str "")) ∧
      dictLookupOf (fallbackRecord a) "category" = some (.str "Uncategorized") ∧
      dictLookupOf (fallbackRecord a) "sentiment" = some (.str "Unknown") ∧
      dictLookupOf (fallbackRecord a) "references" = some (.list []) := by
  refine ⟨?_, by simp, ?_⟩
  · exact mapM_ok_of _ _ _ (fun a ha => by
      obtain ⟨p, hp⟩ := hd a ha
      exact enrich_eq_fallback llm a p hp (Or.inl (hl p)))
  · intro a ha
    obtain ⟨h1, h2, h3, h4⟩ := fallback_fields a
    exact ⟨h1, h2, h3, h4, rfl, rfl, rfl⟩

/-- C1 witness: the amended theorem applied to a concrete run. -/
theorem claim_C1_witness :
    enrich_all (fun _ => .error .exception) [PyVal.dict []] =
      .ok ([PyVal.dict []].map fallbackRecord) :=
  (claim_C1 (fun _ => .error .exception) [PyVal.dict []]
    (fun _ => ⟨.exception, rfl⟩)
    (fun a ha => by rw [List.mem_singleton] at ha; subst ha; exact ⟨_, rfl⟩)).1

/-! Claim C4. -/

/-- C4 counterexample: when the collaborator returns the text "5", the adapter
returns the decoded integer 5 as is — a value with neither a title nor a
summary key, hence neither schema-conforming nor the fallback record (which
does carry a summary). -/
theorem claim_C4_counterexample :
    enrich_article_with_gpt_full (fun _ => .ok "5") (.dict []) = .ok (.int 5) ∧
    dictLookupOf (.int 5) "title" = Option.none ∧
    dictLookupOf (.int 5) "summary" = Option.none ∧
    getStrField (fallbackRecord (.dict [])) "summary" = some "GPT failed." :=
  ⟨rfl, rfl, rfl, rfl⟩

/-- C4 (amended): whenever the collaborator returns text without raising, the
adapter parses it as JSON with no schema validation: any successfully decoded
JSON value is returned unchanged, and only malformed JSON yields the
deterministic fallback record. -/
theorem claim_C4 (article : PyVal) (llm : String → Except PyErr String)
    (p content : String) (hp : buildPrompt article = .ok p)
    (hc : llm p = .ok content) :
    enrich_article_with_gpt_full llm article =
      .ok (match jsonDecode content with
           | some v => v
           | Option.none => fallbackRecord article) := by
  unfold enrich_article_with_gpt_full
  rw [hp]
  cases h : jsonDecode content <;>
    simp [Bind.bind, Except.bind, Pure.pure, Except.pure, hc, h]

/-- C4 witness: a decoded non-schema reply is returned as is. -/
theorem claim_C4_witness :
    enrich_article_with_gpt_full (fun _ => .ok "[1]") (.dict []) =
      .ok (.list [.int 1]) := by
  have h := claim_C4 (.dict []) (fun _ => .ok "[1]")
    ((buildPrompt (.dict [])).toOption.getD "") "[1]" rfl rfl
  exact h

/-! Claim C3. -/

/-- C3 counterexample: a mapping whose results key holds a non-sequence makes
parse return that value — not a sequence. -/
theorem claim_C3_counterexample :
    safe_parse_response (.dict [("results", .int 5)]) = .int 5 ∧
    isList (.int 5) = false :=
  ⟨rfl, rfl⟩

/-- C3 (amended): parse never raises (it is a total function into values) and
dispatches by shape: a list is returned as is, a mapping yields the value under
the results key whatever it is (empty sequence if absent), a string is
JSON-decoded and dispatched by the decoded shape, and an undecodable string or
any unrecognized type yields the empty sequence. The returned value is a
sequence except when the mapping (given or decoded) holds a non-sequence under
results. -/
theorem claim_C3 (v : PyVal) :
    (∀ l, v = .list l → safe_parse_response v = .list l) ∧
    (∀ d, v = .dict d →
      safe_parse_response v = (dict_get d "results").getD (.list [])) ∧
    (∀ s, v = .str s → safe_parse_response v =
      (match jsonDecode s with
       | some (.list l) => .list l
       | some (.dict d) => (dict_get d "results").getD (.list [])
       | some _ => .list []
       | Option.none => .list [])) ∧
    ((∀ s, v ≠ .str s) → (∀ l, v ≠ .list l) → (∀ d, v ≠ .dict d) →
      safe_parse_response v = .list []) := by
  refine ⟨?_, ?_, ?_, ?_⟩
  · rintro l rfl; rfl
  · rintro d rfl; rfl
  · rintro s rfl
    cases h : jsonDecode s with
    | none => simp [safe_parse_response, h]
    | some w => cases w <;> simp [safe_parse_response, h]
  · intro hs hl hd
    cases v with
    | str s => exact absurd rfl (hs s)
    | list l => exact absurd rfl (hl l)
    | dict d => exact absurd rfl (hd d)
    | none => rfl
    | bool b => rfl
    | int n => rfl
    | float lx => rfl

/-- C3 witness: the mapping case at a concrete input. -/
theorem claim_C3_witness :
    safe_parse_response (.dict [("results", .list [.int 7])]) = .list [.int 7] := by
  have h := (claim_C3 (.dict [("results", .list [.int 7])])).2.1
    [("results", .list [.int 7])] rfl
  exact h

/-! Claims C7 and C8. -/

/-- Setting one key leaves every other key unchanged. -/
theorem dict_get_set_ne (d : List (String × PyVal)) (k2 k : String) (v : PyVal)
    (h : k ≠ k2) : dict_get (dict_set d k2 v) k = dict_get d k := by
  induction d with
  | nil => simp [dict_set, dict_get, Ne.symm h]
  | cons a rest ih =>
    by_cases h2 : a.1 = k2 <;> by_cases h4 : a.1 = k <;>
      simp [dict_set, dict_get, h2, h4, h, Ne.symm h, ih]

/-- Setting a key makes it present with the set value. -/
theorem dict_get_set_self (d : List (String × PyVal)) (k : String) (v : PyVal) :
    dict_get (dict_set d k v) k = some v := by
  induction d with
  | nil => simp [dict_set, dict_get]
  | cons a rest ih =>
    by_cases h2 : a.1 = k <;> simp [dict_set, dict_get, h2, ih]

/-- On a dict with a string url, the per-article reference enrichment computes
`setRefs`. -/
theorem enrich_refs_one_ok (d : List (String × PyVal)) (u : String)
    (hu : dict_get d "url" = some (.str u)) :
    enrich_refs_one (.dict d) = .ok (setRefs (.dict d)) := by
  have hs : setRefs (.dict d) =
      .dict (dict_set d "research_references" (refsValFor u)) := by
    simp only [setRefs, hu]
  rw [hs]
  unfold enrich_refs_one
  cases h1 : strContains u "tnfd.global" <;>
    cases h2 : strContains u "ipcc.ch" <;>
      cases h3 : strContains u "swissre.com" <;>
        simp [pyIndex, hu, trusted_sources, anyInUrl, pyInStr, List.foldlM,
          Bind.bind, Except.bind, Pure.pure, Except.pure,
          refsValFor, refsFor, h1, h2, h3]

/-- C7 counterexample: the Reference Enricher raises KeyError on a record
missing the url field. -/
theorem claim_C7_counterexample :
    enrich_articles_with_research_references [.dict []] =
      .error (.keyError "url") :=
  rfl

/-- C7 (amended): for every list of records that are mappings with a string
url, the Reference Enricher never raises and passes every record through
unchanged apart from setting research_references; a record missing the url
field instead raises KeyError. -/
theorem claim_C7 (articles : List PyVal)
    (h : ∀ a ∈ articles, ∃ d u, a = .dict d ∧ dict_get d "url" = some (.str u)) :
    enrich_articles_with_research_references articles =
      .ok (articles.map setRefs) ∧
    ∀ a ∈ articles, ∀ k, k ≠ "research_references" →
      dictLookupOf (setRefs a) k = dictLookupOf a k := by
  constructor
  · exact mapM_ok_of _ _ _ (fun a ha => by
      obtain ⟨d, u, rfl, hu⟩ := h a ha
      exact enrich_refs_one_ok d u hu)
  · intro a ha k hk
    obtain ⟨d, u, rfl, hu⟩ := h a ha
    simp only [setRefs, hu, dictLookupOf]
    exact dict_get_set_ne d "research_references" k _ hk

/-- C7 witness: a concrete well-formed record passes through. -/
theorem claim_C7_witness :
    enrich_articles_with_research_references
      [.dict [("url", .str "https://nyt.com"), ("x", .int 1)]] =
      .ok ([PyVal.dict [("url", .str "https://nyt.com"), ("x", .int 1)]].map setRefs) :=
  (claim_C7 _ (fun a ha => by
    rw [List.mem_singleton] at ha; subst ha
    exact ⟨_, "https://nyt.com", rfl, rfl⟩)).1

/-- C8 counterexample: a url containing both tnfd.global and ipcc.ch yields
references ["TNFD", "IPCC"], not the claimed ["TNFD"]. -/
theorem claim_C8_counterexample :
    enrich_articles_with_research_references
      [.dict [("url", .str "https://tnfd.global/x?r=ipcc.ch")]] =
      .ok [setRefs (.dict [("url", .str "https://tnfd.global/x?r=ipcc.ch")])] ∧
    strContains "https://tnfd.global/x?r=ipcc.ch" "tnfd.global" = true ∧
    refsStrings (setRefs (.dict [("url", .str "https://tnfd.global/x?r=ipcc.ch")])) =
      some ["TNFD", "IPCC"] ∧
    some ["TNFD", "IPCC"] ≠ some ["TNFD"] :=
  ⟨rfl, rfl, rfl, by decide⟩

/-- C8 (amended): for well-formed articles the enrichment preserves input
order; a url containing tnfd.global and no other registered domain yields
exactly ["TNFD"]; a url containing no registered domain yields the sentinel
["None"]; and an organization is recorded exactly when one of its registered
domains is a substring of the url. -/
theorem claim_C8 (articles : List PyVal)
    (h : ∀ a ∈ articles, ∃ d u, a = .dict d ∧ dict_get d "url" = some (.str u)) :
    enrich_articles_with_research_references articles =
      .ok (articles.map setRefs) ∧
    ∀ a d u, a = .dict d → dict_get d "url" = some (.str u) →
      (strContains u "tnfd.global" = true → strContains u "ipcc.ch" = false →
        strContains u "swissre.com" = false →
        refsStrings (setRefs a) = some ["TNFD"]) ∧
      (strContains u "tnfd.global" = false → strContains u "ipcc.ch" = false →
        strContains u "swissre.com" = false →
        refsStrings (setRefs a) = some ["None"]) ∧
      (∀ org doms, (org, doms) ∈ trusted_sources →
        ((PyVal.str org) ∈ refsFor u ↔ ∃ dm ∈ doms, strContains u dm = true)) := by
  constructor
  · exact mapM_ok_of _ _ _ (fun a ha => by
      obtain ⟨d, u, rfl, hu⟩ := h a ha
      exact enrich_refs_one_ok d u hu)
  · rintro a d u rfl hu
    refine ⟨?_, ?_, ?_⟩
    · intro h1 h2 h3
      simp [setRefs, hu, refsStrings, dictLookupOf, dict_get_set_self,
        refsValFor, refsFor, trusted_sources, h1, h2, h3]
    · intro h1 h2 h3
      simp [setRefs, hu, refsStrings, dictLookupOf, dict_get_set_self,
        refsValFor, refsFor, trusted_sources, h1, h2, h3]
    · intro org doms hmem
      simp only [trusted_sources, List.mem_cons, List.not_mem_nil, or_false] at hmem
      rcases hmem with h0 | h0 | h0 <;> (injection h0 with e1 e2; subst e1; subst e2) <;>
        cases h1 : strContains u "tnfd.global" <;>
          cases h2 : strContains u "ipcc.ch" <;>
            cases h3 : strContains u "swissre.com" <;>
              simp [refsFor, trusted_sources, h1, h2, h3]

/-! Claims C9 and C2. -/

/-- Truthiness of a string value. -/
theorem py_truthy_str (s : String) : py_truthy (.str s) = decide (s ≠ "") :=
  rfl

/-- On three strings the date extractor never raises and computes its pure net
effect. -/
theorem extract_best_date_str (u t c today : String) :
    extract_best_date (.str u) (.str t) (.str c) today =
      .ok (best_date_str u t c today) := by
  unfold extract_best_date best_date_str
  cases hx : tryPatternsText u.data with
  | some d => simp [hx]
  | none =>
    cases hy : tryPatternsText t.data with
    | some d => simp [hx, hy]
    | none => cases hz : tryPatternsText c.data <;> simp [hx, hy, hz]

/-- On a dict whose url and title fields are strings (or absent), the
structurer body never raises and computes `structured_spec`. -/
theorem structure_one_eval (ner : String → List (String × String))
    (today : String) (d : List (String × PyVal)) (u ts : String)
    (hu : (dict_get d "url").getD (.str "") = .str u)
    (ht : (dict_get d "title").getD (.str "") = .str ts) :
    structure_one ner today (.dict d) = .ok (structured_spec ner today d u ts) := by
  unfold structure_one structured_spec titleSpec
  simp only [pyGetAttr, hu, ht, Bind.bind, Except.bind]
  cases h3 : py_truthy ((dict_get d "source").getD (.str "")) <;>
    by_cases h1 : ts = "" <;>
      by_cases h2 : basenameStr u = "" <;>
        simp [h1, h2, h3, py_truthy_str, osBasename, extract_domain_as_source,
          extract_best_date_str, Bind.bind, Except.bind, Pure.pure, Except.pure]

/-- C9 counterexample: with no explicit source, the url
http://news.www.example.com/a is structured with source news.example.com —
every occurrence of www. is removed — while stripping only a leading www.
would keep news.www.example.com. -/
theorem claim_C9_counterexample :
    (match structure_articles (fun _ => []) "2025-01-01"
        (.dict [("results",
          .list [.dict [("url", .str "http://news.www.example.com/a")]])]) with
     | .ok [r] => getStrField r "source"
     | _ => Option.none) = some "news.example.com" ∧
    specLeadingWwwStrip (urlNetloc "http://news.www.example.com/a") =
      "news.www.example.com" ∧
    "news.example.com" ≠ "news.www.example.com" :=
  ⟨rfl, rfl, by decide⟩

/-- C9 (amended): for every raw result with a string (or absent) url and title
and no truthy explicit source, the structured source field is the network
location of the url with every occurrence of "www." removed, left to right and
non-overlapping — not only a leading prefix. -/
theorem claim_C9 (ner : String → List (String × String)) (today : String)
    (d : List (String × PyVal)) (u ts : String)
    (hu : (dict_get d "url").getD (.str "") = .str u)
    (ht : (dict_get d "title").getD (.str "") = .str ts)
    (hs : py_truthy ((dict_get d "source").getD (.str "")) = false) :
    extract_domain_as_source (.str u) =
      .ok (String.mk (removeWwwAll (urlNetloc u).data)) ∧
    ∃ r, structure_one ner today (.dict d) = .ok r ∧
      getStrField r "source" =
        some (String.mk (removeWwwAll (urlNetloc u).data)) := by
  refine ⟨rfl, _, structure_one_eval ner today d u ts hu ht, ?_⟩
  simp [structured_spec, getStrField, dictLookupOf, dict_get, hs]

/-- C9 witness: the amended theorem at a concrete record. -/
theorem claim_C9_witness :
    extract_domain_as_source (.str "http://www.a.com/p") =
      .ok (String.mk (removeWwwAll (urlNetloc "http://www.a.com/p").data)) :=
  (claim_C9 (fun _ => []) "2025-01-01" [("url", .str "http://www.a.com/p")]
    "http://www.a.com/p" "" rfl rfl rfl).1

/-- The field at k exists and is non-null. -/
def nonNullField (a : PyVal) (k : String) : Prop :=
  ∃ v, dictLookupOf a k = some v ∧ v ≠ PyVal.none

/-- A truthy value is not None. -/
theorem truthy_ne_none (v : PyVal) (h : py_truthy v = true) : v ≠ PyVal.none := by
  intro hn
  subst hn
  simp [py_truthy] at h

/-- The structured record has exactly the eight documented keys, all non-null,
and a non-empty title. -/
theorem structured_spec_fields (ner : String → List (String × String))
    (today : String) (d : List (String × PyVal)) (u ts : String) :
    keysOf (structured_spec ner today d u ts) =
      ["title", "url", "source", "date", "location", "category",
       "summary_input", "full_content"] ∧
    (∀ k ∈ ["title", "url", "source", "date", "location", "category",
       "summary_input", "full_content"],
      nonNullField (structured_spec ner today d u ts) k) ∧
    ∃ t, getStrField (structured_spec ner today d u ts) "title" = some t ∧
      t ≠ "" := by
  have htitle : titleSpec ts u ≠ "" := by
    unfold titleSpec
    by_cases h1 : ts = "" <;> by_cases h2 : basenameStr u = "" <;>
      simp [h1, h2]
  refine ⟨rfl, ?_, ⟨titleSpec ts u, rfl, htitle⟩⟩
  intro k hk
  simp only [List.mem_cons, List.not_mem_nil, or_false] at hk
  rcases hk with rfl | rfl | rfl | rfl | rfl | rfl | rfl | rfl
  · exact ⟨.str (titleSpec ts u), rfl, by simp⟩
  · exact ⟨.str u, rfl, by simp⟩
  · refine ⟨_, rfl, ?_⟩
    cases h : py_truthy ((dict_get d "source").getD (.str "")) with
    | true =>
      simp only [h, if_true]
      exact truthy_ne_none _ h
    | false => simp [h]
  · exact ⟨_, rfl, by simp⟩
  · exact ⟨_, rfl, by simp⟩
  · exact ⟨_, rfl, by simp⟩
  · exact ⟨_, rfl, by simp⟩
  · exact ⟨_, rfl, by simp⟩

/-- C2 counterexample: a raw result with a wrongly-typed url field (an
integer) makes the structurer raise TypeError instead of absorbing it. -/
theorem claim_C2_counterexample :
    structure_articles (fun _ => []) "2025-01-01"
      (.dict [("results", .list [.dict [("url", .int 7)]])]) =
      .error .typeError :=
  rfl

/-- C2 (amended): for every raw search response whose parsed results iterate
to mappings with string (or absent) url and title fields, structuring never
raises, emits one record per raw result, and every emitted record has all
eight documented fields present and non-null, with a non-empty title resolved
through the fallback chain; the defensive absorption does not extend to every
malformed result — an integer-valued url makes it raise TypeError. -/
theorem claim_C2 (ner : String → List (String × String)) (today : String)
    (response : PyVal) (items : List PyVal)
    (hit : pyIterItems (safe_parse_response response) = .ok items)
    (hall : ∀ r ∈ items, ∃ d, r = .dict d ∧ strField d "url" ∧ strField d "title") :
    ∃ out, structure_articles ner today response = .ok out ∧
      out.length = items.length ∧
      ∀ a ∈ out,
        keysOf a = ["title", "url", "source", "date", "location", "category",
          "summary_input", "full_content"] ∧
        (∀ k ∈ ["title", "url", "source", "date", "location", "category",
          "summary_input", "full_content"], nonNullField a k) ∧
        ∃ t, getStrField a "title" = some t ∧ t ≠ "" := by
  refine ⟨items.map (structure_spec_of ner today), ?_, by simp, ?_⟩
  · unfold structure_articles
    rw [hit]
    simp only [Bind.bind, Except.bind]
    refine mapM_ok_of _ _ _ (fun r hr => ?_)
    obtain ⟨d, rfl, ⟨u, hu⟩, ⟨ts, ht⟩⟩ := hall r hr
    have e1 : strOfD (dict_get d "url") = u := by simp [strOfD, hu]
    have e2 : strOfD (dict_get d "title") = ts := by simp [strOfD, ht]
    simp only [structure_spec_of, e1, e2]
    exact structure_one_eval ner today d u ts hu ht
  · intro a ha
    rw [List.mem_map] at ha
    obtain ⟨r, hr, rfl⟩ := ha
    obtain ⟨d, rfl, ⟨u, hu⟩, ⟨ts, ht⟩⟩ := hall r hr
    have e1 : strOfD (dict_get d "url") = u := by simp [strOfD, hu]
    have e2 : strOfD (dict_get d "title") = ts := by simp [strOfD, ht]
    simp only [structure_spec_of, e1, e2]
    exact structured_spec_fields ner today d u ts

/-- C2 witness: the amended theorem at the concrete end-to-end response. -/
theorem claim_C2_witness :
    ∃ out, structure_articles (fun _ => []) "2025-01-01"
        (.dict [("results",
          .list [.dict [("url", .str "https://swissre.com/report")]])]) =
        .ok out ∧
      out.length = [PyVal.dict [("url", .str "https://swissre.com/report")]].length ∧
      ∀ a ∈ out,
        keysOf a = ["title", "url", "source", "date", "location", "category",
          "summary_input", "full_content"] ∧
        (∀ k ∈ ["title", "url", "source", "date", "location", "category",
          "summary_input", "full_content"], nonNullField a k) ∧
        ∃ t, getStrField a "title" = some t ∧ t ≠ "" :=
  claim_C2 (fun _ => []) "2025-01-01" _ _ rfl
    (fun r hr => by
      rw [List.mem_singleton] at hr
      subst hr
      exact ⟨_, rfl, ⟨"https://swissre.com/report", rfl⟩, ⟨"", rfl⟩⟩)

/-! Claim C6. -/

/-- Every search hit comes from a position match. -/
theorem reSearch_some {m : List Char → Option (List Char)} :
    ∀ {l g}, reSearch m l = some g → ∃ l0, m l0 = some g := by
  intro l
  induction l with
  | nil => intro g h; exact ⟨[], h⟩
  | cons ch rest ih =>
    intro g h
    unfold reSearch at h
    cases hm : m (ch :: rest) with
    | some g2 => rw [hm] at h; cases h; exact ⟨_, hm⟩
    | none => rw [hm] at h; exact ih h

/-- A successful strptime forces four digits and a dash at the front. -/
theorem parseIso_shape {l : List Char} {x : Nat × Nat × Nat}
    (h : parseIso l = some x) :
    ∃ y1 y2 y3 y4 rest, l = y1 :: y2 :: y3 :: y4 :: '-' :: rest ∧
      y1.isDigit = true ∧ y2.isDigit = true ∧ y3.isDigit = true ∧
      y4.isDigit = true := by
  unfold parseIso at h
  split at h
  case _ y1 y2 y3 y4 sep rest =>
    split at h
    case isTrue hd =>
      simp only [Bool.and_eq_true, decide_eq_true_eq] at hd
      exact ⟨y1, y2, y3, y4, rest, by rw [hd.2], hd.1.1.1.1, hd.1.1.1.2,
        hd.1.1.2, hd.1.2⟩
    case isFalse => exact absurd h (by simp)
  case _ => exact absurd h (by simp)

/-- strptime fails on any text of the form word-characters, space, rest. -/
theorem parseIso_word_space (w rest : List Char) (hw : w ≠ [])
    (hmem : ∀ ch ∈ w, isWordChar ch = true) :
    parseIso (w ++ ' ' :: rest) = Option.none := by
  cases h : parseIso (w ++ ' ' :: rest) with
  | none => rfl
  | some x =>
    obtain ⟨y1, y2, y3, y4, rest2, heq, h1, h2, h3, h4⟩ := parseIso_shape h
    rcases w with _ | ⟨w1, _ | ⟨w2, _ | ⟨w3, _ | ⟨w4, w5⟩⟩⟩⟩
    · exact absurd rfl hw
    · injection heq with e1 heq
      injection heq with e2 heq
      rw [← e2] at h2
      exact absurd h2 (by decide)
    · injection heq with e1 heq
      injection heq with e2 heq
      injection heq with e3 heq
      rw [← e3] at h3
      exact absurd h3 (by decide)
    · injection heq with e1 heq
      injection heq with e2 heq
      injection heq with e3 heq
      injection heq with e4 heq
      rw [← e4] at h4
      exact absurd h4 (by decide)
    · injection heq with e1 heq
      injection heq with e2 heq
      injection heq with e3 heq
      injection heq with e4 heq
      cases w5 with
      | nil =>
        injection heq with e5 _
        exact absurd e5 (by decide)
      | cons c2 w6 =>
        injection heq with e5 _
        have hc := hmem c2 (by simp)
        rw [e5] at hc
        exact absurd hc (by decide)

/-- Digits are word characters. -/
theorem isWordChar_of_digit {ch : Char} (h : ch.isDigit = true) :
    isWordChar ch = true := by
  simp [isWordChar, h]

/-- The shared word-space-year tail starts with a nonempty word run. -/
theorem matchWordSpYear_shape {l g : List Char} (h : matchWordSpYear l = some g) :
    ∃ w rest, w ≠ [] ∧ (∀ ch ∈ w, isWordChar ch = true) ∧ g = w ++ ' ' :: rest := by
  unfold matchWordSpYear at h
  split at h
  · exact absurd h (by simp)
  · rename_i hne
    split at h
    · split at h
      · exact ⟨l.takeWhile isWordChar, _,
          (fun he => by rw [he] at hne; exact hne rfl),
          (fun ch hch => List.mem_takeWhile_imp hch),
          by cases h; rfl⟩
      · exact absurd h (by simp)
    · exact absurd h (by simp)

/-- Any match of the two-digit second-pattern alternative is word-characters,
space, rest. -/
theorem matchP2Two_shape {l g : List Char} (h : matchP2Two l = some g) :
    ∃ w rest, w ≠ [] ∧ (∀ ch ∈ w, isWordChar ch = true) ∧ g = w ++ ' ' :: rest := by
  unfold matchP2Two at h
  split at h
  case _ d1 d2 sp rest =>
    split at h
    case isTrue hd =>
      simp only [Bool.and_eq_true, decide_eq_true_eq] at hd
      obtain ⟨g3, hg3, he⟩ := Option.map_eq_some'.mp h
      refine ⟨[d1, d2], g3, by simp, ?_, by simp [← he]⟩
      intro ch hch
      simp only [List.mem_cons, List.not_mem_nil, or_false] at hch
      rcases hch with rfl | rfl
      · exact isWordChar_of_digit hd.1.1
      · exact isWordChar_of_digit hd.1.2
    case isFalse => exact absurd h (by simp)
  case _ => exact absurd h (by simp)

/-- Any match of the one-digit second-pattern alternative is word-characters,
space, rest. -/
theorem matchP2One_shape {l g : List Char} (h : matchP2One l = some g) :
    ∃ w rest, w ≠ [] ∧ (∀ ch ∈ w, isWordChar ch = true) ∧ g = w ++ ' ' :: rest := by
  unfold matchP2One at h
  split at h
  case _ d1 sp rest =>
    split at h
    case isTrue hd =>
      simp only [Bool.and_eq_true, decide_eq_true_eq] at hd
      obtain ⟨g3, hg3, he⟩ := Option.map_eq_some'.mp h
      refine ⟨[d1], g3, by simp, ?_, by simp [← he]⟩
      intro ch hch
      simp only [List.mem_cons, List.not_mem_nil, or_false] at hch
      rcases hch with rfl
      exact isWordChar_of_digit hd.1
    case isFalse => exact absurd h (by simp)
  case _ => exact absurd h (by simp)

/-- Any match of the second date pattern is word-characters, space, rest. -/
theorem matchP2At_shape {l g : List Char} (h : matchP2At l = some g) :
    ∃ w rest, w ≠ [] ∧ (∀ ch ∈ w, isWordChar ch = true) ∧ g = w ++ ' ' :: rest := by
  unfold matchP2At at h
  split at h
  case _ g2 htwo =>
    cases h
    exact matchP2Two_shape htwo
  case _ => exact matchP2One_shape h

/-- Any match of the third date pattern is word-characters, space, rest. -/
theorem matchP3At_shape {l g : List Char} (h : matchP3At l = some g) :
    ∃ w rest, w ≠ [] ∧ (∀ ch ∈ w, isWordChar ch = true) ∧ g = w ++ ' ' :: rest := by
  unfold matchP3At at h
  split at h
  · exact absurd h (by simp)
  · rename_i hne
    have hw1 : l.takeWhile isWordChar ≠ [] := by
      intro he
      rw [he] at hne
      exact hne rfl
    have hw2 : ∀ ch ∈ l.takeWhile isWordChar, isWordChar ch = true :=
      fun ch hch => List.mem_takeWhile_imp hch
    split at h
    case _ sp rest =>
      split at h
      case isTrue =>
        obtain ⟨tl, htl, he⟩ := Option.map_eq_some'.mp h
        exact ⟨_, tl, hw1, hw2, he.symm⟩
      case isFalse => exact absurd h (by simp)
    case _ => exact absurd h (by simp)

/-- No match of the second date pattern ever parses with the fixed format. -/
theorem matchP2At_futile {l g : List Char} (h : matchP2At l = some g) :
    parseIso g = Option.none := by
  obtain ⟨w, rest, hw, hmem, rfl⟩ := matchP2At_shape h
  exact parseIso_word_space w rest hw hmem

/-- No match of the third date pattern ever parses with the fixed format. -/
theorem matchP3At_futile {l g : List Char} (h : matchP3At l = some g) :
    parseIso g = Option.none := by
  obtain ⟨w, rest, hw, hmem, rfl⟩ := matchP3At_shape h
  exact parseIso_word_space w rest hw hmem

/-- The second-pattern leg of the per-text loop never contributes. -/
theorem stepP2_none (l : List Char) :
    (reSearch matchP2At l).bind (fun g => (parseIso g).map fmtIso) =
      Option.none := by
  cases h2 : reSearch matchP2At l with
  | none => rfl
  | some g2 =>
    obtain ⟨l0, hm⟩ := reSearch_some h2
    simp [matchP2At_futile hm]

/-- The third-pattern leg of the per-text loop never contributes. -/
theorem stepP3_none (l : List Char) :
    (reSearch matchP3At l).bind (fun g => (parseIso g).map fmtIso) =
      Option.none := by
  cases h3 : reSearch matchP3At l with
  | none => rfl
  | some g3 =>
    obtain ⟨l0, hm⟩ := reSearch_some h3
    simp [matchP3At_futile hm]

/-- Per text, the three-pattern loop reduces to the first pattern alone. -/
theorem tryPatternsText_eq (l : List Char) :
    tryPatternsText l =
      (reSearch matchP1At l).bind (fun g => (parseIso g).map fmtIso) := by
  unfold tryPatternsText
  simp only [stepP2_none, stepP3_none]
  cases hx : (reSearch matchP1At l).bind (fun g => (parseIso g).map fmtIso) <;>
    simp

/-- The net effect over the three texts. -/
theorem best_eq_spec (u t c today : String) :
    best_date_str u t c today = specNetDate [u, t, c] today := by
  unfold best_date_str specNetDate
  simp only [tryPatternsText_eq, List.findSome?_cons]
  cases (reSearch matchP1At u.data).bind (fun g => (parseIso g).map fmtIso) <;>
    cases (reSearch matchP1At t.data).bind (fun g => (parseIso g).map fmtIso) <;>
      cases (reSearch matchP1At c.data).bind (fun g => (parseIso g).map fmtIso) <;>
        simp [List.findSome?]

/-- C6: on string inputs the extractor scans url, title, content in order,
trying the three patterns in order and strptime-ing every match with the fixed
iso format; its net effect is `specNetDate`: only the first pattern's
dash-separated, calendar-valid matches ever convert (the second and third
patterns always fail to parse and fall through), and when nothing matches the
current date is returned. -/
theorem claim_C6 (u t c today : String) :
    extract_best_date (.str u) (.str t) (.str c) today =
      .ok (specNetDate [u, t, c] today) ∧
    ((∀ s ∈ [u, t, c], reSearch matchP1At s.data = Option.none) →
      extract_best_date (.str u) (.str t) (.str c) today = .ok today) ∧
    (∀ s g, reSearch matchP2At s = some g → parseIso g = Option.none) ∧
    (∀ s g, reSearch matchP3At s = some g → parseIso g = Option.none) := by
  have hmain : extract_best_date (.str u) (.str t) (.str c) today =
      .ok (specNetDate [u, t, c] today) := by
    rw [extract_best_date_str, best_eq_spec]
  refine ⟨hmain, ?_, ?_, ?_⟩
  · intro hnone
    rw [hmain]
    unfold specNetDate
    simp [List.findSome?_cons, hnone u (by simp), hnone t (by simp),
      hnone c (by simp), List.findSome?]
  · intro s g hg
    obtain ⟨l0, hm⟩ := reSearch_some hg
    exact matchP2At_futile hm
  · intro s g hg
    obtain ⟨l0, hm⟩ := reSearch_some hg
    exact matchP3At_futile hm

/-- C6 witness: the theorem applied at concrete inputs, discharging the
no-match hypothesis and exhibiting a concrete futile second-pattern match. -/
theorem claim_C6_witness :
    extract_best_date (.str "no date here") (.str "") (.str "x") "2025-06-01" =
      .ok "2025-06-01" ∧
    parseIso ['5', ' ', 'M', 'a', 'y', ' ', '2', '0', '2', '4'] = Option.none := by
  constructor
  · refine (claim_C6 "no date here" "" "x" "2025-06-01").2.1 ?_
    intro s hs
    simp only [List.mem_cons, List.not_mem_nil, or_false] at hs
    rcases hs with rfl | rfl | rfl <;> rfl
  · exact (claim_C6 "" "" "" "x").2.2.1 "5 May 2024".data
      ['5', ' ', 'M', 'a', 'y', ' ', '2', '0', '2', '4'] rfl

/-! Claim C10: idempotence of the text normalizer. -/

/-- Free of character references: no position starts an ampersand followed by a
resolvable reference. -/
def noEntity (l : List Char) : Prop :=
  ∀ u v, l = u ++ '&' :: v → entityMatch v = Option.none

/-- Free of tags: no occurrence of the tag pattern. -/
def noTag (l : List Char) : Prop :=
  ¬ ∃ u seg v, seg ≠ [] ∧ '>' ∉ seg ∧ l = u ++ '<' :: (seg ++ '>' :: v)

/-- Free of URL matches: no occurrence of the URL pattern. -/
def noUrl (l : List Char) : Prop :=
  ¬ ∃ u c v, pyIsSpace c = false ∧
    l = u ++ 'h' :: 't' :: 't' :: 'p' :: c :: v

/-- Every character printable. -/
def allPrintable (l : List Char) : Prop :=
  ∀ c ∈ l, pyIsPrintable c = true

/-- Every character NFKD-stable in the model. -/
def nfkdNormal (l : List Char) : Prop :=
  ∀ c ∈ l, nfkdTable c = Option.none

/-- On reference-free text the unescaper is the identity (any fuel). -/
theorem unescapeGo_id (fuel : Nat) : ∀ l, noEntity l → unescapeGo fuel l = l := by
  induction fuel with
  | zero => intro l _; cases l <;> rfl
  | succ fuel ih =>
    intro l h
    cases l with
    | nil => rfl
    | cons c rest =>
      have hrest : noEntity rest := fun u v hv => h (c :: u) v (by simp [hv])
      unfold unescapeGo
      by_cases hc : c = '&'
      · subst hc
        rw [h [] rest rfl]
        simp [ih rest hrest]
      · simp [hc, ih rest hrest]

/-- On reference-free text `htmlUnescape` is the identity. -/
theorem htmlUnescape_id {l : List Char} (h : noEntity l) : htmlUnescape l = l :=
  unescapeGo_id _ l h

/-- On tag-free text the tag substitution is the identity (any fuel). -/
theorem neGt_eq_false {c : Char} (h : neGt c = false) : c = '>' := by
  simpa [neGt] using h

/-- Characters of the kept tag interior are not greater-than signs. -/
theorem mem_takeWhile_neGt {c : Char} {l : List Char}
    (h : c ∈ l.takeWhile neGt) : c ≠ '>' := by
  have := List.mem_takeWhile_imp h
  simpa [neGt] using this

theorem subTagsGo_id (fuel : Nat) : ∀ l, noTag l → subTagsGo fuel l = l := by
  induction fuel with
  | zero => intro l _; cases l <;> rfl
  | succ fuel ih =>
    intro l h
    cases l with
    | nil => rfl
    | cons c rest =>
      have hrest : noTag rest := by
        rintro ⟨u, seg, v, h1, h2, h3⟩
        exact h ⟨c :: u, seg, v, h1, h2, by simp [h3]⟩
      unfold subTagsGo
      by_cases hc : c = '<'
      · subst hc
        have hcond : ¬ (1 ≤ (rest.takeWhile neGt).length ∧
            (rest.takeWhile neGt).length < rest.length) := by
          rintro ⟨h1, h2⟩
          have hdec : rest = rest.takeWhile neGt ++ rest.dropWhile neGt :=
            (List.takeWhile_append_dropWhile (p := neGt) (l := rest)).symm
          have hlen := congrArg List.length hdec
          rw [List.length_append] at hlen
          have hne : rest.dropWhile neGt ≠ [] := by
            intro he
            rw [he] at hlen
            simp at hlen
            omega
          have hhd := List.head_dropWhile_not neGt rest hne
          have hhd2 := neGt_eq_false (by simpa using hhd)
          apply h
          refine ⟨[], rest.takeWhile neGt, (rest.dropWhile neGt).tail, ?_, ?_, ?_⟩
          · intro he
            rw [he] at h1
            simp at h1
          · intro hmem
            exact absurd rfl (mem_takeWhile_neGt hmem)
          · have hcons : rest.dropWhile neGt =
                '>' :: (rest.dropWhile neGt).tail := by
              rw [← hhd2]
              exact (List.head_cons_tail _ hne).symm
            simp only [List.nil_append]
            conv_lhs => rw [hdec, hcons]
        rw [if_pos rfl, if_neg hcond]
        simp [ih rest hrest]
      · simp [hc, ih rest hrest]

/-- On tag-free text `subTags` is the identity. -/
theorem subTags_id {l : List Char} (h : noTag l) : subTags l = l :=
  subTagsGo_id _ l h

/-- Inversion of the URL head matcher. -/
theorem httpHeadMatch_true {l : List Char} (h : httpHeadMatch l = true) :
    ∃ c5 tail, l = 'h' :: 't' :: 't' :: 'p' :: c5 :: tail ∧
      pyIsSpace c5 = false := by
  unfold httpHeadMatch at h
  split at h
  case _ c1 c2 c3 c4 c5 tail =>
    simp only [Bool.and_eq_true, decide_eq_true_eq, Bool.not_eq_true'] at h
    obtain ⟨⟨⟨⟨e1, e2⟩, e3⟩, e4⟩, e5⟩ := h
    exact ⟨c5, tail, by rw [e1, e2, e3, e4], e5⟩
  case _ => cases h

/-- On URL-free text the URL substitution is the identity (any fuel). -/
theorem subUrlsGo_id (fuel : Nat) : ∀ l, noUrl l → subUrlsGo fuel l = l := by
  induction fuel with
  | zero => intro l _; cases l <;> rfl
  | succ fuel ih =>
    intro l h
    cases l with
    | nil => rfl
    | cons c rest =>
      have hrest : noUrl rest := by
        rintro ⟨u, c5, v, h1, h2⟩
        exact h ⟨c :: u, c5, v, h1, by simp [h2]⟩
      unfold subUrlsGo
      by_cases hm : httpHeadMatch (c :: rest) = true
      · exfalso
        obtain ⟨c5, tail, heq, hsp⟩ := httpHeadMatch_true hm
        exact h ⟨[], c5, tail, hsp, by simp [heq]⟩
      · simp [hm, ih rest hrest]

/-- On URL-free text `subUrls` is the identity. -/
theorem subUrls_id {l : List Char} (h : noUrl l) : subUrls l = l :=
  subUrlsGo_id _ l h

/-- On NFKD-stable text the normalization is the identity. -/
theorem nfkdStr_id {l : List Char} (h : nfkdNormal l) : nfkdStr l = l := by
  induction l with
  | nil => rfl
  | cons c rest ih =>
    have hc := h c (List.mem_cons_self c rest)
    have hrest : nfkdNormal rest := fun x hx => h x (List.mem_cons_of_mem c hx)
    simp only [nfkdStr, List.foldr_cons, hc, Option.getD_none]
    exact congrArg (c :: ·) (ih hrest)

/-- On printable text the printable filter is the identity. -/
theorem filter_printable_id {l : List Char} (h : allPrintable l) :
    List.filter pyIsPrintable l = l :=
  List.filter_eq_self.mpr h

/-- On text free of markup and URLs, printable and NFKD-stable, cleaning is
collapse-and-strip. -/
theorem clean_text_eq_stripCollapse {s : String} (h1 : noEntity s.data)
    (h2 : noTag s.data) (h3 : noUrl s.data) (h4 : allPrintable s.data)
    (h5 : nfkdNormal s.data) :
    clean_text (.str s) = String.mk (pyStrip (collapseWs s.data)) := by
  show String.mk (pyStrip (collapseWs (List.filter pyIsPrintable
    (nfkdStr (subUrls (subTags (htmlUnescape s.data))))))) = _
  rw [htmlUnescape_id h1, subTags_id h2, subUrls_id h3, nfkdStr_id h5,
    filter_printable_id h4]

/-- No two adjacent whitespace characters. -/
def noAdjWs (M : List Char) : Prop :=
  List.Chain' (fun a b => ¬(pyIsSpace a = true ∧ pyIsSpace b = true)) M

/-- Whitespace-canonical: every whitespace character is a plain space and no
two are adjacent — the shape of `collapseWs` output. -/
def wsCanon (M : List Char) : Prop :=
  (∀ c ∈ M, pyIsSpace c = true → c = ' ') ∧ noAdjWs M

/-- The head of a collapse of a non-whitespace-headed list. -/
theorem collapse_head_nonsp {d : Char} (rest : List Char)
    (hd : ¬ pyIsSpace d = true) :
    (collapseWs (d :: rest)).head? = some d := by
  cases rest with
  | nil => simp [collapseWs, hd]
  | cons e r => simp [collapseWs, hd]

/-- Collapse output is whitespace-canonical. -/
theorem collapse_canon : ∀ l, wsCanon (collapseWs l) := by
  intro l
  induction l with
  | nil => exact ⟨by simp [collapseWs], List.chain'_nil⟩
  | cons c l2 ih =>
    cases l2 with
    | nil =>
      by_cases hc : pyIsSpace c = true <;>
        constructor <;> simp [collapseWs, hc, noAdjWs]
    | cons d rest =>
      by_cases hc : pyIsSpace c = true
      · by_cases hd : pyIsSpace d = true
        · simpa [collapseWs, hc, hd] using ih
        · rw [show collapseWs (c :: d :: rest) = ' ' :: collapseWs (d :: rest) by
            simp [collapseWs, hc, hd]]
          refine ⟨?_, ?_⟩
          · intro x hx hsp
            rcases List.mem_cons.mp hx with rfl | hx2
            · rfl
            · exact ih.1 x hx2 hsp
          · unfold noAdjWs
            rw [List.chain'_cons']
            refine ⟨?_, ih.2⟩
            intro y hy
            rw [collapse_head_nonsp rest hd] at hy
            simp only [Option.mem_def, Option.some.injEq] at hy
            subst hy
            intro hand
            exact hd hand.2
      · rw [show collapseWs (c :: d :: rest) = c :: collapseWs (d :: rest) by
          simp [collapseWs, hc]]
        refine ⟨?_, ?_⟩
        · intro x hx hsp
          rcases List.mem_cons.mp hx with rfl | hx2
          · exact absurd hsp hc
          · exact ih.1 x hx2 hsp
        · unfold noAdjWs
          rw [List.chain'_cons']
          refine ⟨?_, ih.2⟩
          intro y hy hand
          exact hc hand.1

/-- Collapse is the identity on whitespace-canonical lists. -/
theorem collapse_of_canon : ∀ M, wsCanon M → collapseWs M = M := by
  intro M
  induction M with
  | nil => intro _; rfl
  | cons c l2 ih =>
    intro hcanon
    cases l2 with
    | nil =>
      by_cases hc : pyIsSpace c = true
      · have := hcanon.1 c (by simp) hc
        subst this
        simp [collapseWs]
      · simp [collapseWs, hc]
    | cons d rest =>
      have htail : wsCanon (d :: rest) := by
        refine ⟨fun x hx hsp => hcanon.1 x (List.mem_cons_of_mem c hx) hsp, ?_⟩
        exact (List.chain'_cons'.mp hcanon.2).2
      by_cases hc : pyIsSpace c = true
      · have hcsp := hcanon.1 c (by simp) hc
        have hnd : ¬ pyIsSpace d = true := by
          have hr := (List.chain'_cons'.mp hcanon.2).1 d (by simp)
          intro hd
          exact hr ⟨hc, hd⟩
        subst hcsp
        simp [collapseWs, hc, hnd, ih htail]
      · simp [collapseWs, hc, ih htail]

/-- Members of a collapse are members of the input or spaces. -/
theorem mem_collapse {x : Char} : ∀ {l}, x ∈ collapseWs l → x ∈ l ∨ x = ' ' := by
  intro l
  induction l with
  | nil => intro h; simp [collapseWs] at h
  | cons c l2 ih =>
    intro h
    cases l2 with
    | nil =>
      by_cases hc : pyIsSpace c = true <;> simp [collapseWs, hc] at h
      · exact Or.inr h
      · exact Or.inl (by simp [h])
    | cons d rest =>
      by_cases hc : pyIsSpace c = true
      · by_cases hd : pyIsSpace d = true
        · rw [show collapseWs (c :: d :: rest) = collapseWs (d :: rest) by
            simp [collapseWs, hc, hd]] at h
          rcases ih h with h2 | h2
          · exact Or.inl (List.mem_cons_of_mem c h2)
          · exact Or.inr h2
        · rw [show collapseWs (c :: d :: rest) = ' ' :: collapseWs (d :: rest) by
            simp [collapseWs, hc, hd]] at h
          rcases List.mem_cons.mp h with rfl | h2
          · exact Or.inr rfl
          · rcases ih h2 with h3 | h3
            · exact Or.inl (List.mem_cons_of_mem c h3)
            · exact Or.inr h3
      · rw [show collapseWs (c :: d :: rest) = c :: collapseWs (d :: rest) by
          simp [collapseWs, hc]] at h
        rcases List.mem_cons.mp h with rfl | h2
        · exact Or.inl (by simp)
        · rcases ih h2 with h3 | h3
          · exact Or.inl (List.mem_cons_of_mem c h3)
          · exact Or.inr h3

/-- The strip of a list sits inside it. -/
theorem strip_decomp (M : List Char) : ∃ a b, M = a ++ pyStrip M ++ b := by
  refine ⟨M.takeWhile pyIsSpace,
    ((M.dropWhile pyIsSpace).reverse.takeWhile pyIsSpace).reverse, ?_⟩
  have hX : M.dropWhile pyIsSpace = pyStrip M ++
      ((M.dropWhile pyIsSpace).reverse.takeWhile pyIsSpace).reverse := by
    unfold pyStrip
    conv_lhs => rw [← List.reverse_reverse (M.dropWhile pyIsSpace)]
    conv_lhs =>
      rw [← List.takeWhile_append_dropWhile (p := pyIsSpace)
        (l := (M.dropWhile pyIsSpace).reverse)]
    rw [List.reverse_append]
  conv_lhs =>
    rw [← List.takeWhile_append_dropWhile (p := pyIsSpace) (l := M), hX]
  rw [List.append_assoc]

/-- Members of the strip are members of the list. -/
theorem mem_strip {x : Char} {M : List Char} (h : x ∈ pyStrip M) : x ∈ M := by
  obtain ⟨a, b, hab⟩ := strip_decomp M
  rw [hab]
  simp [h]

/-- A chain survives cutting a front block. -/
theorem chain'_of_append_right {R : Char → Char → Prop} :
    ∀ a b : List Char, List.Chain' R (a ++ b) → List.Chain' R b := by
  intro a
  induction a with
  | nil => intro b h; exact h
  | cons c a2 ih => intro b h; exact ih b (List.Chain'.tail h)

/-- The whitespace adjacency chain is preserved by reversal. -/
theorem noAdjWs_reverse {M : List Char} (h : noAdjWs M) : noAdjWs M.reverse := by
  unfold noAdjWs at h ⊢
  rw [List.chain'_reverse]
  exact h.imp (fun a b hab hand => hab ⟨hand.2, hand.1⟩)

/-- Stripping preserves whitespace canonicity. -/
theorem canon_strip {M : List Char} (h : wsCanon M) : wsCanon (pyStrip M) := by
  refine ⟨fun x hx hsp => h.1 x (mem_strip hx) hsp, ?_⟩
  have h1 : noAdjWs (M.dropWhile pyIsSpace) := by
    have := (List.takeWhile_append_dropWhile (p := pyIsSpace) (l := M)).symm
    exact chain'_of_append_right _ _ (by rw [← this]; exact h.2)
  have h2 : noAdjWs (M.dropWhile pyIsSpace).reverse := noAdjWs_reverse h1
  have h3 : noAdjWs ((M.dropWhile pyIsSpace).reverse.dropWhile pyIsSpace) := by
    have := (List.takeWhile_append_dropWhile (p := pyIsSpace)
      (l := (M.dropWhile pyIsSpace).reverse)).symm
    exact chain'_of_append_right _ _ (by rw [← this]; exact h2)
  exact noAdjWs_reverse h3

/-- Dropping-while is idempotent. -/
theorem dropWhile_idem (p : Char → Bool) (x : List Char) :
    (x.dropWhile p).dropWhile p = x.dropWhile p := by
  cases h : x.dropWhile p with
  | nil => rfl
  | cons hd tl =>
    have hhd := List.head?_dropWhile_not p x
    rw [h] at hhd
    simp only [List.head?_cons] at hhd
    rw [List.dropWhile_cons_of_neg (by simp [hhd])]

/-- The strip is a front part of the whitespace-dropped list. -/
theorem strip_decomp_front (M : List Char) :
    ∃ t, M.dropWhile pyIsSpace = pyStrip M ++ t := by
  refine ⟨((M.dropWhile pyIsSpace).reverse.takeWhile pyIsSpace).reverse, ?_⟩
  unfold pyStrip
  conv_lhs => rw [← List.reverse_reverse (M.dropWhile pyIsSpace)]
  conv_lhs =>
    rw [← List.takeWhile_append_dropWhile (p := pyIsSpace)
      (l := (M.dropWhile pyIsSpace).reverse)]
  rw [List.reverse_append]

/-- Stripping is idempotent. -/
theorem strip_idem (M : List Char) : pyStrip (pyStrip M) = pyStrip M := by
  have hdw : (pyStrip M).dropWhile pyIsSpace = pyStrip M := by
    obtain ⟨t, ht⟩ := strip_decomp_front M
    cases hy : pyStrip M with
    | nil => rfl
    | cons h0 ty =>
      have hh := List.head?_dropWhile_not pyIsSpace M
      rw [ht, hy] at hh
      simp only [List.cons_append, List.head?_cons] at hh
      rw [List.dropWhile_cons_of_neg (by simp [hh])]
  have hrev : (pyStrip M).reverse =
      (M.dropWhile pyIsSpace).reverse.dropWhile pyIsSpace := by
    unfold pyStrip
    rw [List.reverse_reverse]
  show (((pyStrip M).dropWhile pyIsSpace).reverse.dropWhile pyIsSpace).reverse =
    pyStrip M
  rw [hdw, hrev, dropWhile_idem, ← hrev, List.reverse_reverse]

/-- Collapse-and-strip is idempotent. -/
theorem stripCollapse_idem (l : List Char) :
    pyStrip (collapseWs (pyStrip (collapseWs l))) = pyStrip (collapseWs l) := by
  have hy : wsCanon (pyStrip (collapseWs l)) := canon_strip (collapse_canon l)
  rw [collapse_of_canon _ hy, strip_idem]

/-- Whitespace expansion: the second list is the first with each space
replaced by a nonempty whitespace run. Collapsing the second yields the
first. -/
inductive WsExp : List Char → List Char → Prop where
  | nil : WsExp [] []
  | chr {c : Char} {t t2 : List Char} : pyIsSpace c = false → WsExp t t2 →
      WsExp (c :: t) (c :: t2)
  | sp {run : List Char} {t t2 : List Char} : run ≠ [] →
      (∀ c ∈ run, pyIsSpace c = true) → WsExp t t2 →
      WsExp (' ' :: t) (run ++ t2)

/-- Expansion of whitespace-free text is the identity. -/
theorem wsExp_ws_free {t t2 : List Char} (h : WsExp t t2)
    (hfree : ∀ c ∈ t, pyIsSpace c = false) : t2 = t := by
  induction h with
  | nil => rfl
  | chr hc hw ih =>
    rename_i c t3 t4
    rw [ih (fun x hx => hfree x (List.mem_cons_of_mem c hx))]
  | sp hrun hruns hw ih =>
    have := hfree ' ' (by simp)
    rw [show pyIsSpace ' ' = true by decide] at this
    cases this

/-- Expansion splits over append. -/
theorem wsExp_split {b t2 : List Char} :
    ∀ a, WsExp (a ++ b) t2 →
      ∃ a2 b2, t2 = a2 ++ b2 ∧ WsExp a a2 ∧ WsExp b b2 := by
  intro a
  induction a generalizing t2 with
  | nil => intro h; exact ⟨[], t2, rfl, WsExp.nil, h⟩
  | cons c a2 ih =>
    intro h
    cases h with
    | chr hc hw =>
      obtain ⟨a3, b3, rfl, hwa, hwb⟩ := ih hw
      exact ⟨c :: a3, b3, rfl, WsExp.chr hc hwa, hwb⟩
    | sp hrun hruns hw =>
      obtain ⟨a3, b3, rfl, hwa, hwb⟩ := ih hw
      exact ⟨_ ++ a3, b3, (List.append_assoc _ a3 b3).symm,
        WsExp.sp hrun hruns hwa, hwb⟩

/-- Expansion of a nonempty list is nonempty. -/
theorem wsExp_ne_nil {t t2 : List Char} (h : WsExp t t2) (hne : t ≠ []) :
    t2 ≠ [] := by
  cases h with
  | nil => exact hne
  | chr hc hw => simp
  | sp hrun hruns hw =>
    intro h2
    exact hrun (List.append_eq_nil.mp h2).1

/-- Members of an expansion are members of the original or whitespace. -/
theorem wsExp_mem {t t2 : List Char} (h : WsExp t t2) {x : Char} (hx : x ∈ t2) :
    x ∈ t ∨ pyIsSpace x = true := by
  induction h with
  | nil => simp at hx
  | chr hc hw ih =>
    rename_i c t3 t4
    rcases List.mem_cons.mp hx with rfl | hx2
    · exact Or.inl (by simp)
    · rcases ih hx2 with h2 | h2
      · exact Or.inl (List.mem_cons_of_mem c h2)
      · exact Or.inr h2
  | sp hrun hruns hw ih =>
    rename_i run t3 t4
    rcases List.mem_append.mp hx with hx2 | hx2
    · exact Or.inr (hruns x hx2)
    · rcases ih hx2 with h2 | h2
      · exact Or.inl (List.mem_cons_of_mem ' ' h2)
      · exact Or.inr h2

/-- The last element is not whitespace. -/
def lastNonSp (t : List Char) : Prop :=
  ∀ c, t.getLast? = some c → pyIsSpace c = false

/-- The collapse of a whitespace-headed list starts with a space. -/
theorem collapse_sp_cons : ∀ (rest : List Char) {c : Char},
    pyIsSpace c = true → ∃ M, collapseWs (c :: rest) = ' ' :: M := by
  intro rest
  induction rest with
  | nil => intro c h; exact ⟨[], by simp [collapseWs, h]⟩
  | cons d r ih =>
    intro c h
    by_cases hd : pyIsSpace d = true
    · obtain ⟨M, hM⟩ := ih hd
      exact ⟨M, by rw [show collapseWs (c :: d :: r) = collapseWs (d :: r) by
        simp [collapseWs, h, hd], hM]⟩
    · exact ⟨collapseWs (d :: r), by simp [collapseWs, h, hd]⟩

/-- Matching a front part of a collapse back onto the original list: any
decomposition of `collapseWs l` into a block (ending in non-whitespace) and a
tail comes from a decomposition of `l` into an expansion of the block and a
tail. -/
theorem cwp : ∀ (l : List Char), ∀ t v, t ≠ [] → lastNonSp t →
    collapseWs l = t ++ v → ∃ t2 v2, WsExp t t2 ∧ l = t2 ++ v2 := by
  intro l
  induction l with
  | nil =>
    intro t v ht _ hc
    rw [show collapseWs [] = [] from rfl] at hc
    cases t with
    | nil => exact absurd rfl ht
    | cons x t1 => cases hc
  | cons c l2 ih =>
    intro t v ht hlast hc
    cases l2 with
    | nil =>
      by_cases hsp : pyIsSpace c = true
      · rw [show collapseWs [c] = [' '] by simp [collapseWs, hsp]] at hc
        cases t with
        | nil => exact absurd rfl ht
        | cons x t1 =>
          injection hc with h1 h2
          have ht1 : t1 = [] := (List.append_eq_nil.mp h2.symm).1
          have hl := hlast x (by rw [ht1]; rfl)
          rw [← h1] at hl
          exact absurd hl (by decide)
      · rw [show collapseWs [c] = [c] by simp [collapseWs, hsp]] at hc
        cases t with
        | nil => exact absurd rfl ht
        | cons x t1 =>
          injection hc with h1 h2
          have ht1 : t1 = [] := (List.append_eq_nil.mp h2.symm).1
          have hx2 : pyIsSpace x = false := by
            rw [← h1]
            exact Bool.eq_false_iff.mpr hsp
          refine ⟨[x], [], ?_, ?_⟩
          · rw [ht1]
            exact WsExp.chr hx2 WsExp.nil
          · simp [h1]
    | cons d rest =>
      by_cases hsp : pyIsSpace c = true
      · by_cases hsd : pyIsSpace d = true
        · rw [show collapseWs (c :: d :: rest) = collapseWs (d :: rest) by
            simp [collapseWs, hsp, hsd]] at hc
          obtain ⟨t2, v2, hw, hdec⟩ := ih t v ht hlast hc
          obtain ⟨M, hM⟩ := collapse_sp_cons rest hsd
          rw [hM] at hc
          cases t with
          | nil => exact absurd rfl ht
          | cons x t1 =>
            injection hc with h1 _
            rw [← h1] at hw
            cases hw with
            | chr hcf hwt => exact absurd hcf (by decide)
            | sp hrun hruns hwt =>
              rename_i run t3
              refine ⟨c :: (run ++ t3), v2, ?_, ?_⟩
              · rw [← h1]
                show WsExp (' ' :: t1) ((c :: run) ++ t3)
                exact WsExp.sp (by simp)
                  (fun y hy => by
                    rcases List.mem_cons.mp hy with rfl | hy2
                    · exact hsp
                    · exact hruns y hy2) hwt
              · rw [hdec]
                simp
        · rw [show collapseWs (c :: d :: rest) = ' ' :: collapseWs (d :: rest) by
            simp [collapseWs, hsp, hsd]] at hc
          cases t with
          | nil => exact absurd rfl ht
          | cons x t1 =>
            injection hc with h1 h2
            cases t1 with
            | nil =>
              have hl := hlast x rfl
              rw [← h1] at hl
              exact absurd hl (by decide)
            | cons y t2 =>
              have hlast2 : lastNonSp (y :: t2) := by
                intro cc hcc
                exact hlast cc (by rw [List.getLast?_cons_cons]; exact hcc)
              obtain ⟨t3, v3, hw, hdec⟩ := ih (y :: t2) v (by simp) hlast2 h2
              refine ⟨c :: t3, v3, ?_, ?_⟩
              · rw [← h1]
                show WsExp (' ' :: y :: t2) ([c] ++ t3)
                exact WsExp.sp (by simp)
                  (fun cc hcc => by
                    simp only [List.mem_singleton] at hcc
                    rw [hcc]
                    exact hsp) hw
              · rw [hdec]
                rfl
      · rw [show collapseWs (c :: d :: rest) = c :: collapseWs (d :: rest) by
          simp [collapseWs, hsp]] at hc
        cases t with
        | nil => exact absurd rfl ht
        | cons x t1 =>
          injection hc with h1 h2
          have hx2 : pyIsSpace x = false := by
            rw [← h1]
            exact Bool.eq_false_iff.mpr hsp
          cases t1 with
          | nil =>
            refine ⟨[x], d :: rest, WsExp.chr hx2 WsExp.nil, ?_⟩
            simp [h1]
          | cons y t2 =>
            have hlast2 : lastNonSp (y :: t2) := by
              intro cc hcc
              exact hlast cc (by rw [List.getLast?_cons_cons]; exact hcc)
            obtain ⟨t3, v3, hw, hdec⟩ := ih (y :: t2) v (by simp) hlast2 h2
            refine ⟨x :: t3, v3, WsExp.chr hx2 hw, ?_⟩
            rw [hdec, h1]
            rfl

/-- Any interior occurrence in a collapse comes from an expansion occurrence in
the original list. -/
theorem cw : ∀ (l u t v : List Char), t ≠ [] → lastNonSp t →
    collapseWs l = u ++ t ++ v →
    ∃ u2 t2 v2, WsExp t t2 ∧ l = u2 ++ t2 ++ v2 := by
  intro l
  induction l with
  | nil =>
    intro u t v ht _ hc
    rw [show collapseWs [] = [] from rfl] at hc
    have : t = [] := by
      have h2 := (List.append_eq_nil.mp hc.symm).1
      exact (List.append_eq_nil.mp h2).2
    exact absurd this ht
  | cons c l2 ih =>
    intro u t v ht hlast hc
    cases u with
    | nil =>
      simp only [List.nil_append] at hc
      obtain ⟨t2, v2, hw, hdec⟩ := cwp (c :: l2) t v ht hlast hc
      exact ⟨[], t2, v2, hw, by simpa using hdec⟩
    | cons x u1 =>
      cases l2 with
      | nil =>
        have hlen1 : (collapseWs [c]).length = 1 := by
          by_cases hsp : pyIsSpace c = true <;> simp [collapseWs, hsp]
        rw [hc] at hlen1
        simp only [List.length_append, List.length_cons] at hlen1
        have htlen : 0 < t.length := List.length_pos.mpr ht
        omega
      | cons d rest =>
        by_cases hsp : pyIsSpace c = true
        · by_cases hsd : pyIsSpace d = true
          · rw [show collapseWs (c :: d :: rest) = collapseWs (d :: rest) by
              simp [collapseWs, hsp, hsd]] at hc
            obtain ⟨u2, t2, v2, hw, hdec⟩ := ih (x :: u1) t v ht hlast hc
            exact ⟨c :: u2, t2, v2, hw, by rw [hdec]; rfl⟩
          · rw [show collapseWs (c :: d :: rest) = ' ' :: collapseWs (d :: rest) by
              simp [collapseWs, hsp, hsd]] at hc
            have hc2 : collapseWs (d :: rest) = u1 ++ t ++ v := by
              injection hc with h1 h2
            obtain ⟨u2, t2, v2, hw, hdec⟩ := ih u1 t v ht hlast hc2
            exact ⟨c :: u2, t2, v2, hw, by rw [hdec]; rfl⟩
        · rw [show collapseWs (c :: d :: rest) = c :: collapseWs (d :: rest) by
            simp [collapseWs, hsp]] at hc
          have hc2 : collapseWs (d :: rest) = u1 ++ t ++ v := by
            injection hc with h1 h2
          obtain ⟨u2, t2, v2, hw, hdec⟩ := ih u1 t v ht hlast hc2
          exact ⟨c :: u2, t2, v2, hw, by rw [hdec]; rfl⟩

/-- Occurrence transport from the cleaned text back to the original text. -/
theorem transport (l : List Char) {u t v : List Char} (ht : t ≠ [])
    (hlast : lastNonSp t) (hc : pyStrip (collapseWs l) = u ++ t ++ v) :
    ∃ u2 t2 v2, WsExp t t2 ∧ l = u2 ++ t2 ++ v2 := by
  obtain ⟨a, b, hab⟩ := strip_decomp (collapseWs l)
  rw [hc] at hab
  exact cw l (a ++ u) t (v ++ b) ht hlast
    (by rw [hab]; simp only [List.append_assoc])

/-- A successful prefix test decomposes the list. -/
theorem startsWith_decomp : ∀ {p l : List Char}, startsWithList l p = true →
    ∃ r, l = p ++ r := by
  intro p
  induction p with
  | nil => intro l _; exact ⟨l, rfl⟩
  | cons x ps ih =>
    intro l h
    cases l with
    | nil => cases h
    | cons c cs =>
      simp only [startsWithList, Bool.and_eq_true, decide_eq_true_eq] at h
      obtain ⟨r, hr⟩ := ih h.2
      exact ⟨r, by rw [hr, h.1]; rfl⟩

/-- Splitting a list at the boundary of its maximal satisfying prefix. -/
theorem takeWhile_drop_decomp (p : Char → Bool) :
    ∀ l : List Char, l = l.takeWhile p ++ l.drop (l.takeWhile p).length := by
  intro l
  induction l with
  | nil => rfl
  | cons c rest ih =>
    by_cases hc : p c = true
    · rw [List.takeWhile_cons_of_pos hc]
      simp only [List.length_cons, List.drop_succ_cons, List.cons_append]
      exact congrArg (c :: ·) ih
    · rw [List.takeWhile_cons_of_neg hc]
      rfl

/-- The maximal satisfying prefix of a satisfying block before a failing
head. -/
theorem takeWhile_exact {p : Char → Bool} :
    ∀ {ds : List Char}, (∀ c ∈ ds, p c = true) → ∀ {x : Char}, p x = false →
    ∀ r, (ds ++ x :: r).takeWhile p = ds := by
  intro ds
  induction ds with
  | nil =>
    intro _ x hx r
    simp only [List.nil_append]
    exact List.takeWhile_cons_of_neg (by simp [hx])
  | cons d ds2 ih =>
    intro hds x hx r
    simp only [List.cons_append]
    rw [List.takeWhile_cons_of_pos (hds d (by simp))]
    rw [ih (fun c hc => hds c (List.mem_cons_of_mem d hc)) hx r]

/-- A scalar with code point in the visible-ASCII window is not whitespace. -/
theorem not_space_of_toNat {c : Char} (h1 : 33 ≤ c.toNat)
    (h2 : c.toNat ≤ 126) : pyIsSpace c = false := by
  rw [Bool.eq_false_iff]
  intro htrue
  have hb : c = ' ' → False := fun he => by
    rw [he] at h1
    exact absurd h1 (by decide)
  simp only [pyIsSpace, Bool.or_eq_true, Bool.and_eq_true, decide_eq_true_eq,
    or_assoc] at htrue
  rcases htrue with ha | hB | hC | hD | hE | hF | hG | hH | hI | hJ | hK | hL
  · omega
  · exact hb hB
  · omega
  · omega
  · omega
  · omega
  · omega
  · omega
  · omega
  · omega
  · omega
  · omega

/-- Decimal digits are not whitespace. -/
theorem digit_not_space {c : Char} (h : c.isDigit = true) :
    pyIsSpace c = false := by
  have h2 : 48 ≤ c.toNat ∧ c.toNat ≤ 57 := by
    simp [Char.isDigit] at h
    exact ⟨h.1, h.2⟩
  exact not_space_of_toNat (by omega) (by omega)

/-- Hexadecimal digits are not whitespace. -/
theorem hex_not_space {c : Char} (h : hexDigit c = true) :
    pyIsSpace c = false := by
  rw [hexDigit] at h
  rcases Bool.or_eq_true_iff.mp h with h2 | h2
  · rcases Bool.or_eq_true_iff.mp h2 with h3 | h3
    · exact digit_not_space h3
    · have h4 : 97 ≤ c.toNat ∧ c.toNat ≤ 102 := by
        simp [Char.le_def] at h3
        exact ⟨h3.1, h3.2⟩
      exact not_space_of_toNat (by omega) (by omega)
  · have h4 : 65 ≤ c.toNat ∧ c.toNat ≤ 70 := by
      simp [Char.le_def] at h2
      exact ⟨h2.1, h2.2⟩
    exact not_space_of_toNat (by omega) (by omega)

/-- Decimal digits are not the letter x. -/
theorem digit_ne_x {c : Char} (h : c.isDigit = true) : ¬ c = 'x' := by
  intro he
  rw [he] at h
  exact absurd h (by decide)

/-- A hexadecimal reference matches whatever follows it. -/
theorem entityMatch_hex_some {ds : List Char} (hne : ds ≠ [])
    (hds : ∀ c ∈ ds, hexDigit c = true) (r2 : List Char) :
    entityMatch (('#' :: 'x' :: (ds ++ [';'])) ++ r2) ≠ Option.none := by
  intro hcon
  rw [show ('#' :: 'x' :: (ds ++ [';'])) ++ r2 =
    '#' :: 'x' :: (ds ++ ';' :: r2) by simp] at hcon
  have htw : (ds ++ ';' :: r2).takeWhile hexDigit = ds :=
    takeWhile_exact hds (by decide) r2
  have hdr : (ds ++ ';' :: r2).drop ds.length = ';' :: r2 :=
    List.drop_left ds (';' :: r2)
  have hemp : ds.isEmpty = false := by
    cases ds with
    | nil => exact absurd rfl hne
    | cons a b => rfl
  simp [entityMatch, startsWithList, htw, hdr, hemp] at hcon

/-- A decimal reference matches whatever follows it. -/
theorem entityMatch_dec_some {ds : List Char} (hne : ds ≠ [])
    (hds : ∀ c ∈ ds, c.isDigit = true) (r2 : List Char) :
    entityMatch (('#' :: (ds ++ [';'])) ++ r2) ≠ Option.none := by
  intro hcon
  cases ds with
  | nil => exact absurd rfl hne
  | cons d0 ds1 =>
    rw [show ('#' :: ((d0 :: ds1) ++ [';'])) ++ r2 =
      '#' :: d0 :: (ds1 ++ ';' :: r2) by simp] at hcon
    have htw : (d0 :: (ds1 ++ ';' :: r2)).takeWhile Char.isDigit =
        d0 :: ds1 := by
      rw [show d0 :: (ds1 ++ ';' :: r2) = (d0 :: ds1) ++ ';' :: r2 from rfl]
      exact takeWhile_exact hds (by decide) r2
    have hdr : (ds1 ++ ';' :: r2).drop ds1.length = ';' :: r2 :=
      List.drop_left ds1 (';' :: r2)
    have hd0 : d0.isDigit = true := hds d0 (by simp)
    have hx : ¬ d0 = 'x' := digit_ne_x hd0
    simp [entityMatch, startsWithList, htw, hdr, hx, List.drop_succ_cons] at hcon

/-- A resolvable reference localizes: the input splits into a nonempty
whitespace-free matching head that still matches in front of any tail. -/
theorem entityMatch_localizes {v : List Char} (h : entityMatch v ≠ Option.none) :
    ∃ p r, v = p ++ r ∧ p ≠ [] ∧ (∀ c ∈ p, pyIsSpace c = false) ∧
      ∀ r2, entityMatch (p ++ r2) ≠ Option.none := by
  by_cases h1 : startsWithList v ['a', 'm', 'p', ';'] = true
  · obtain ⟨r, hr⟩ := startsWith_decomp h1
    refine ⟨['a', 'm', 'p', ';'], r, hr, by simp, by decide, fun r2 hcon => ?_⟩
    simp [entityMatch, startsWithList] at hcon
  by_cases h2 : startsWithList v ['l', 't', ';'] = true
  · obtain ⟨r, hr⟩ := startsWith_decomp h2
    refine ⟨['l', 't', ';'], r, hr, by simp, by decide, fun r2 hcon => ?_⟩
    simp [entityMatch, startsWithList] at hcon
  by_cases h3 : startsWithList v ['g', 't', ';'] = true
  · obtain ⟨r, hr⟩ := startsWith_decomp h3
    refine ⟨['g', 't', ';'], r, hr, by simp, by decide, fun r2 hcon => ?_⟩
    simp [entityMatch, startsWithList] at hcon
  by_cases h4 : startsWithList v ['q', 'u', 'o', 't', ';'] = true
  · obtain ⟨r, hr⟩ := startsWith_decomp h4
    refine ⟨['q', 'u', 'o', 't', ';'], r, hr, by simp, by decide,
      fun r2 hcon => ?_⟩
    simp [entityMatch, startsWithList] at hcon
  by_cases h5 : startsWithList v ['a', 'p', 'o', 's', ';'] = true
  · obtain ⟨r, hr⟩ := startsWith_decomp h5
    refine ⟨['a', 'p', 'o', 's', ';'], r, hr, by simp, by decide,
      fun r2 hcon => ?_⟩
    simp [entityMatch, startsWithList] at hcon
  by_cases h6 : startsWithList v ['n', 'b', 's', 'p', ';'] = true
  · obtain ⟨r, hr⟩ := startsWith_decomp h6
    refine ⟨['n', 'b', 's', 'p', ';'], r, hr, by simp, by decide,
      fun r2 hcon => ?_⟩
    simp [entityMatch, startsWithList] at hcon
  unfold entityMatch at h
  rw [if_neg h1, if_neg h2, if_neg h3, if_neg h4, if_neg h5, if_neg h6] at h
  split at h
  · next hash r =>
    split at h
    · next hhash =>
      split at h
      · next x0 r2 =>
        split at h
        · next hx0 =>
          simp only [] at h
          split at h
          · exact absurd rfl h
          · next hds =>
            split at h
            · next sc rest3 hdrop =>
              split at h
              · next hsc =>
                have hdsne : r2.takeWhile hexDigit ≠ [] :=
                  fun he => hds (by rw [he]; rfl)
                have hmem : ∀ c ∈ r2.takeWhile hexDigit, hexDigit c = true :=
                  fun c hc => List.mem_takeWhile_imp hc
                have hsplit := takeWhile_drop_decomp hexDigit r2
                rw [hdrop, hsc] at hsplit
                refine ⟨'#' :: 'x' :: (r2.takeWhile hexDigit ++ [';']), rest3,
                  ?_, by simp, ?_, ?_⟩
                · rw [hhash, hx0]
                  conv_lhs => rw [hsplit]
                  simp
                · intro c hc
                  rcases List.mem_cons.mp hc with rfl | hc
                  · decide
                  rcases List.mem_cons.mp hc with rfl | hc
                  · decide
                  rcases List.mem_append.mp hc with hc | hc
                  · exact hex_not_space (hmem c hc)
                  · simp only [List.mem_singleton] at hc
                    rw [hc]
                    decide
                · intro rr
                  exact entityMatch_hex_some hdsne hmem rr
              · exact absurd rfl h
            · exact absurd rfl h
        · next hx0 =>
          simp only [] at h
          split at h
          · exact absurd rfl h
          · next hds =>
            split at h
            · next sc rest3 hdrop =>
              split at h
              · next hsc =>
                have hdsne : (x0 :: r2).takeWhile Char.isDigit ≠ [] :=
                  fun he => hds (by rw [he]; rfl)
                have hmem : ∀ c ∈ (x0 :: r2).takeWhile Char.isDigit,
                    c.isDigit = true :=
                  fun c hc => List.mem_takeWhile_imp hc
                have hsplit := takeWhile_drop_decomp Char.isDigit (x0 :: r2)
                rw [hdrop, hsc] at hsplit
                refine ⟨'#' :: ((x0 :: r2).takeWhile Char.isDigit ++ [';']),
                  rest3, ?_, by simp, ?_, ?_⟩
                · rw [hhash]
                  conv_lhs => rw [hsplit]
                  simp
                · intro c hc
                  rcases List.mem_cons.mp hc with rfl | hc
                  · decide
                  rcases List.mem_append.mp hc with hc | hc
                  · exact digit_not_space (hmem c hc)
                  · simp only [List.mem_singleton] at hc
                    rw [hc]
                    decide
                · intro rr
                  exact entityMatch_dec_some hdsne hmem rr
              · exact absurd rfl h
            · exact absurd rfl h
      · exact absurd rfl h
    · exact absurd rfl h
  · exact absurd rfl h

/-- Collapse-and-strip preserves freedom from character references. -/
theorem noEntity_stripCollapse {l : List Char} (h : noEntity l) :
    noEntity (pyStrip (collapseWs l)) := by
  intro u v huv
  by_contra hne
  obtain ⟨p, r, hvpr, hpne, hpns, hre⟩ := entityMatch_localizes hne
  have hc : pyStrip (collapseWs l) = u ++ ('&' :: p) ++ r := by
    rw [huv, hvpr]
    simp
  have hall : ∀ c ∈ '&' :: p, pyIsSpace c = false := by
    intro c hcmem
    rcases List.mem_cons.mp hcmem with rfl | hcp
    · decide
    · exact hpns c hcp
  have hlast : lastNonSp ('&' :: p) :=
    fun c hc2 => hall c (List.mem_of_mem_getLast? hc2)
  obtain ⟨u2, t2, v2, hw, hldec⟩ := transport l (by simp) hlast hc
  rw [wsExp_ws_free hw hall] at hldec
  exact hre v2 (h u2 (p ++ v2) (by rw [hldec]; simp))

/-- Collapse-and-strip preserves freedom from tags. -/
theorem noTag_stripCollapse {l : List Char} (h : noTag l) :
    noTag (pyStrip (collapseWs l)) := by
  rintro ⟨u, seg, v, hsegne, hseggt, hdec⟩
  have hc : pyStrip (collapseWs l) = u ++ (('<' :: seg) ++ ['>']) ++ v := by
    rw [hdec]
    simp
  have hlast : lastNonSp (('<' :: seg) ++ ['>']) := by
    intro x hx2
    rw [List.getLast?_concat] at hx2
    injection hx2 with hx3
    rw [← hx3]
    decide
  obtain ⟨u2, t2, v2, hw, hldec⟩ := transport l (by simp) hlast hc
  obtain ⟨a2, b2, ht2eq, hwa, hwb⟩ := wsExp_split ['<'] hw
  obtain ⟨s2, g2, hb2eq, hws, hwg⟩ := wsExp_split seg hwb
  have ha2 : a2 = ['<'] := wsExp_ws_free hwa (by decide)
  have hg2 : g2 = ['>'] := wsExp_ws_free hwg (by decide)
  refine h ⟨u2, s2, v2, wsExp_ne_nil hws hsegne, ?_, ?_⟩
  · intro hmm
    rcases wsExp_mem hws hmm with hin | hsp
    · exact hseggt hin
    · exact absurd hsp (by decide)
  · rw [hldec, ht2eq, hb2eq, ha2, hg2]
    simp

/-- Collapse-and-strip preserves freedom from URL matches. -/
theorem noUrl_stripCollapse {l : List Char} (h : noUrl l) :
    noUrl (pyStrip (collapseWs l)) := by
  rintro ⟨u, c, v, hcsp, hdec⟩
  have hc : pyStrip (collapseWs l) =
      u ++ (['h', 't', 't', 'p'] ++ [c]) ++ v := by
    rw [hdec]
    simp
  have hns : ∀ x ∈ ['h', 't', 't', 'p'] ++ [c], pyIsSpace x = false := by
    intro x hx
    rcases List.mem_append.mp hx with hx | hx
    · fin_cases hx <;> decide
    · simp only [List.mem_singleton] at hx
      rw [hx]
      exact hcsp
  have hlast : lastNonSp (['h', 't', 't', 'p'] ++ [c]) :=
    fun x hx2 => hns x (List.mem_of_mem_getLast? hx2)
  obtain ⟨u2, t2, v2, hw, hldec⟩ := transport l (by simp) hlast hc
  rw [wsExp_ws_free hw hns] at hldec
  exact h ⟨u2, c, v2, hcsp, by rw [hldec]; simp⟩

/-- Collapse-and-strip preserves printability. -/
theorem allPrintable_stripCollapse {l : List Char} (h : allPrintable l) :
    allPrintable (pyStrip (collapseWs l)) := by
  intro c hc
  rcases mem_collapse (mem_strip hc) with h2 | h2
  · exact h c h2
  · rw [h2]
    decide

/-- Collapse-and-strip preserves NFKD stability. -/
theorem nfkdNormal_stripCollapse {l : List Char} (h : nfkdNormal l) :
    nfkdNormal (pyStrip (collapseWs l)) := by
  intro c hc
  rcases mem_collapse (mem_strip hc) with h2 | h2
  · exact h c h2
  · rw [h2]
    decide

/-- Executable check that no ampersand heads a resolvable reference. -/
def noEntityB : List Char → Bool
  | [] => true
  | c :: rest =>
    (if c = '&' then (entityMatch rest).isNone else true) && noEntityB rest

/-- The executable check certifies freedom from character references. -/
theorem noEntity_of_B : ∀ {l : List Char}, noEntityB l = true → noEntity l := by
  intro l
  induction l with
  | nil =>
    intro _ u v huv
    simp at huv
  | cons c rest ih =>
    intro hB u v huv
    simp only [noEntityB, Bool.and_eq_true] at hB
    obtain ⟨hB1, hB2⟩ := hB
    cases u with
    | nil =>
      injection huv with he hv
      rw [if_pos he] at hB1
      rw [← hv]
      exact Option.isNone_iff_eq_none.mp hB1
    | cons x u2 =>
      injection huv with hx hrest
      exact ih hB2 u2 v hrest

/-- A list without a less-than sign is tag-free. -/
theorem noTag_of_no_lt {l : List Char} (h : '<' ∉ l) : noTag l := by
  rintro ⟨u, seg, v, _, _, hdec⟩
  exact h (by rw [hdec]; simp)

/-- The executable all-check certifies printability. -/
theorem allPrintable_of_B {l : List Char} (h : l.all pyIsPrintable = true) :
    allPrintable l :=
  fun c hc => List.all_eq_true.mp h c hc

/-- The executable all-check certifies NFKD stability. -/
theorem nfkdNormal_of_B {l : List Char}
    (h : (l.all (fun c => (nfkdTable c).isNone)) = true) : nfkdNormal l :=
  fun c hc => Option.isNone_iff_eq_none.mp (List.all_eq_true.mp h c hc)

/-- A list without the letter h is URL-free. -/
theorem noUrl_of_no_h {l : List Char} (h : 'h' ∉ l) : noUrl l := by
  rintro ⟨u, c, v, _, hdec⟩
  exact h (by rw [hdec]; simp)

/-- A list without an ampersand is free of character references. -/
theorem noEntity_of_no_amp {l : List Char} (h : '&' ∉ l) : noEntity l := by
  intro u v huv
  exact absurd (by rw [huv]; simp : '&' ∈ l) h

/-- Visible-ASCII scalars are printable (here the model coincides with
`str.isprintable`: code points 32 to 126 are exactly the printable ASCII
range). -/
theorem pyIsPrintable_ascii {c : Char} (h1 : 32 ≤ c.toNat)
    (h2 : c.toNat ≤ 126) : pyIsPrintable c = true := by
  unfold pyIsPrintable
  by_cases hc : c = ' '
  · rw [if_pos hc]
  · rw [if_neg hc,
      if_neg (by simp only [Bool.or_eq_true, Bool.and_eq_true,
        decide_eq_true_eq]; omega),
      if_neg (by simp only [Bool.or_eq_true, Bool.and_eq_true,
        decide_eq_true_eq]; omega)]

/-- ASCII scalars are decomposition-stable (here the model coincides with
NFKD: ASCII is normalization-inert). -/
theorem nfkdTable_ascii {c : Char} (h : c.toNat ≤ 126) :
    nfkdTable c = Option.none := by
  unfold nfkdTable
  rw [if_neg (by omega), if_neg (by omega), if_neg (by omega),
    if_neg (by omega), if_neg (by omega)]

/-- C10 (amended): the text normalizer is idempotent on every string that
contains no ampersand and no less-than sign, has no URL-pattern occurrence,
and consists of printable ASCII characters (code points 32 to 126):
clean_text (clean_text x) = clean_text x. On this class the entity,
decomposition and printability tables — partial in the model — agree exactly
with the source behavior: with no ampersand nothing unescapes, with no
less-than sign no tag matches, ASCII is NFKD-inert and printable, so every
stage before whitespace collapse-and-trim is the identity, and
collapse-and-trim is idempotent. -/
theorem claim_C10 (s : String) (hamp : '&' ∉ s.data) (hlt : '<' ∉ s.data)
    (hurl : noUrl s.data)
    (hascii : ∀ c ∈ s.data, 32 ≤ c.toNat ∧ c.toNat ≤ 126) :
    clean_text (.str (clean_text (.str s))) = clean_text (.str s) := by
  have h1 : noEntity s.data := noEntity_of_no_amp hamp
  have h2 : noTag s.data := noTag_of_no_lt hlt
  have h3 : noUrl s.data := hurl
  have h4 : allPrintable s.data :=
    fun c hc => pyIsPrintable_ascii (hascii c hc).1 (hascii c hc).2
  have h5 : nfkdNormal s.data :=
    fun c hc => nfkdTable_ascii (hascii c hc).2
  rw [clean_text_eq_stripCollapse h1 h2 h3 h4 h5]
  rw [@clean_text_eq_stripCollapse (String.mk (pyStrip (collapseWs s.data)))
    (noEntity_stripCollapse h1) (noTag_stripCollapse h2)
    (noUrl_stripCollapse h3) (allPrintable_stripCollapse h4)
    (nfkdNormal_stripCollapse h5)]
  show String.mk (pyStrip (collapseWs (pyStrip (collapseWs s.data)))) =
    String.mk (pyStrip (collapseWs s.data))
  rw [stripCollapse_idem]

/-- C10 counterexample: the claim as stated (idempotence for every string
free of markup and URLs) is false. The string "&am\x01p;" is free of markup
and URLs — its ampersand heads no resolvable reference because a control
character interrupts it — yet the non-printable filter of the first pass
glues it into "&amp;", which the second pass unescapes to "&". -/
theorem claim_C10_counterexample :
    noEntity "&am\x01p;".data ∧ noTag "&am\x01p;".data ∧
    noUrl "&am\x01p;".data ∧
    clean_text (.str "&am\x01p;") = "&amp;" ∧
    clean_text (.str (clean_text (.str "&am\x01p;"))) = "&" ∧
    clean_text (.str (clean_text (.str "&am\x01p;"))) ≠
      clean_text (.str "&am\x01p;") :=
  ⟨noEntity_of_B (by decide), noTag_of_no_lt (by decide),
    noUrl_of_no_h (by decide), rfl, rfl, by decide⟩

/-- C10 witness: the amended idempotence at a concrete ampersand-free
printable-ASCII string with interior whitespace. -/
theorem claim_C10_witness :
    clean_text (.str (clean_text (.str "a  b"))) = clean_text (.str "a  b") :=
  claim_C10 "a  b" (by decide) (by decide) (noUrl_of_no_h (by decide))
    (by decide)

/-- C8 witness: one article whose url contains tnfd.global and no other
registered domain; enrichment preserves the list shape and yields exactly
the single reference TNFD. -/
theorem claim_C8_witness :
    enrich_articles_with_research_references
      [.dict [("url", .str "https://tnfd.global/report")]] =
      .ok [setRefs (.dict [("url", .str "https://tnfd.global/report")])] ∧
    refsStrings (setRefs (.dict [("url", .str "https://tnfd.global/report")])) =
      some ["TNFD"] :=
  ⟨(claim_C8 [.dict [("url", .str "https://tnfd.global/report")]]
      (fun a ha => ⟨[("url", .str "https://tnfd.global/report")],
        "https://tnfd.global/report", (by simpa using ha), rfl⟩)).1,
    ((claim_C8 [.dict [("url", .str "https://tnfd.global/report")]]
      (fun a ha => ⟨[("url", .str "https://tnfd.global/report")],
        "https://tnfd.global/report", (by simpa using ha), rfl⟩)).2
      (.dict [("url", .str "https://tnfd.global/report")])
      [("url", .str "https://tnfd.global/report")]
      "https://tnfd.global/report" rfl rfl).1 rfl rfl rfl⟩

end NewsAgent
